import Mathlib

/-!
# Calabash: the pomodoro session state machine

A shallow embedding of `internal/rules/rules.go` and `internal/state/state.go`.

Modelling conventions

* `time.Duration` (an `int64` count of nanoseconds) and `int` (64 bits) are integers
  (`Int`) on which every arithmetic result of the program (`+ 1s`, `++`, `* 4` and the
  subtractions) is reduced by `wrap64`, the two's complement wrap-around at `2^63`.
  `inInt64 x` says that `x` is a value such a field can hold.
* `time.Time` is an integer time stamp, and `time.Now()` is an argument of the
  operation that reads the clock.
* `Status` is the Go `int` type with its two named constants.
* `sync.RWMutex` is explicit state. `Lock()` on a mutex that is not free never
  returns: an operation therefore either returns (`Outcome.returned`) or waits for
  ever (`Outcome.blocked`), and in both cases carries the session as the call left it.
* `fmt.Println` output is not modelled.
-/

namespace Calabash

/-! ## Library types -/

/-- A `time.Duration`: a number of nanoseconds. -/
abbrev Duration := Int

/-- The constant `time.Second`. -/
def Second : Duration := 1000000000

/-- The value an `int64` holds after an arithmetic operation with exact result `x`:
`x` reduced to the range from `-2^63` to `2^63 - 1`. -/
def wrap64 (x : Int) : Int :=
  (x + 9223372036854775808) % 18446744073709551616 - 9223372036854775808

/-- The values of an `int64`. -/
def inInt64 (x : Int) : Prop := -9223372036854775808 ≤ x ∧ x < 9223372036854775808

instance (x : Int) : Decidable (inInt64 x) :=
  inferInstanceAs (Decidable (_ ∧ _))

/-- A `time.Time`, as a time stamp; the zero value is `0`. -/
abbrev Time := Int

/-- The state of a `sync.RWMutex`: whether a writer holds it, and how many readers do. -/
structure RWMutex where
  writer : Bool
  readers : Nat
deriving DecidableEq, Repr

namespace RWMutex

/-- The zero value: an unlocked mutex. -/
def free : RWMutex := { writer := false, readers := 0 }

/-- `Lock()`: acquires the mutex for writing when nobody holds it; `none` when the
call has to wait. -/
def Lock (m : RWMutex) : Option RWMutex :=
  if m.writer = false ∧ m.readers = 0 then some { m with writer := true } else none

/-- `Unlock()`: releases the writer. -/
def Unlock (m : RWMutex) : RWMutex := { m with writer := false }

/-- `RLock()`: acquires the mutex for reading when no writer holds it. -/
def RLock (m : RWMutex) : Option RWMutex :=
  if m.writer = false then some { m with readers := m.readers + 1 } else none

/-- `RUnlock()`: releases one reader. -/
def RUnlock (m : RWMutex) : RWMutex := { m with readers := m.readers - 1 }

end RWMutex

/-- A `chan bool`: its capacity, the buffered values and whether it was closed. -/
structure Chan where
  cap : Nat
  buf : List Bool
  closed : Bool
deriving DecidableEq, Repr

/-! ## `internal/rules/rules.go` -/

/-- Rule represent a set of configuration for a break or a pomodori. -/
structure Rule where
  Rounds : Int
  Duration : Duration
deriving DecidableEq, Repr

/-- Rules wraps together pomodori and breaks rules. -/
structure Rules where
  Pomodori : Rule
  Breaks : Rule
deriving DecidableEq, Repr

/-- NewTestRules inits fresh set of rules used for small tests. -/
def NewTestRules : Rules :=
  { Pomodori := { Rounds := 4, Duration := 5 * Second },
    Breaks := { Rounds := 3, Duration := 5 * Second } }

/-! ## `internal/state/state.go` -/

/-- Status represents either a Working period or a Break period (`type Status int`). -/
abbrev Status := Int

/-- Working status. -/
def Working : Status := 0

/-- Break status. -/
def Break : Status := 1

/-- Session represent a pomodo instance state. -/
structure Session where
  Elapsed : Duration
  Remaining : Duration
  StartedAt : Time
  FinishedAt : Time
  Running : Bool
  Started : Bool
  Finished : Bool
  Status : Status
  Pomodori : Int
  Breaks : Int
  LongBreak : Bool
  Rules : Rules
  Lock : RWMutex
  Cancel : Chan
deriving DecidableEq, Repr

/-- The result of a call on a session: the call returned `val` and left the session
`s`, or it waits for ever in `Lock.Lock()` with the session as it was at that point. -/
inductive Outcome (α : Type) where
  | returned (val : α) (s : Session)
  | blocked (s : Session)
deriving DecidableEq, Repr

/-- The session as the call left it, whether it returned or not. -/
def Outcome.state {α : Type} : Outcome α → Session
  | .returned _ s => s
  | .blocked s => s

/-- Start a new pomodo session. -/
def Start (s : Session) (now : Time) : Session :=
  { s with StartedAt := now, Started := true, Status := Working }

/-- NewSession creates a new pomodoro session: every field has its zero value but
`Cancel` (`make(chan bool, 1)`) and `Rules`. -/
def NewSession : Session :=
  { Elapsed := 0, Remaining := 0, StartedAt := 0, FinishedAt := 0,
    Running := false, Started := false, Finished := false,
    Status := 0, Pomodori := 0, Breaks := 0, LongBreak := false,
    Rules := NewTestRules,
    Lock := RWMutex.free,
    Cancel := { cap := 1, buf := [], closed := false } }

/-- Toogle a session between running and paused mode. -/
def Toogle (s : Session) : Outcome Unit :=
  match s.Lock.Lock with
  | none => .blocked s
  | some l =>
    let s := { s with Lock := l }
    let s := { s with Running := !s.Running }
    .returned () { s with Lock := s.Lock.Unlock }

/-- Terminate sets a finished session to not running and finished. -/
def Terminate (s : Session) (now : Time) : Outcome Unit :=
  match s.Lock.Lock with
  | none => .blocked s
  | some l =>
    let s := { s with Lock := l }
    let s := { s with Running := false }
    let s := { s with Started := false }
    let s := { s with Finished := true }
    let s := { s with FinishedAt := now }
    .returned () { s with Lock := s.Lock.Unlock }

/-- The per-tick step `update`. The deferred `Lock.Unlock()` runs at each `return`
that follows `Lock.Lock()`; every sum, product and difference is an `int64` result. -/
def update (s : Session) (now : Time) : Outcome Bool :=
  if !s.Running then .returned false s
  else
    match s.Lock.Lock with
    | none => .blocked s
    | some l =>
      let s := { s with Lock := l }
      let s := { s with Elapsed := wrap64 (s.Elapsed + 1 * Second) }
      if s.Status = Working then
        let s := { s with Remaining := wrap64 (s.Rules.Pomodori.Duration - s.Elapsed) }
        if s.Elapsed ≥ s.Rules.Pomodori.Duration then
          let s := { s with Pomodori := wrap64 (s.Pomodori + 1) }
          let s := if s.Pomodori = s.Rules.Pomodori.Rounds then { s with LongBreak := true } else s
          let s := { s with Status := Break }
          let s := { s with Elapsed := 0 }
          .returned false { s with Lock := s.Lock.Unlock }
        else
          .returned false { s with Lock := s.Lock.Unlock }
      else if s.LongBreak then
        let s := { s with
          Remaining := wrap64 (wrap64 (s.Rules.Pomodori.Duration * 4) - s.Elapsed) }
        if s.Elapsed ≥ wrap64 (s.Rules.Breaks.Duration * 4) then
          match Terminate s now with
          | .blocked s => .blocked s
          | .returned _ s => .returned true { s with Lock := s.Lock.Unlock }
        else
          .returned false { s with Lock := s.Lock.Unlock }
      else if s.Elapsed ≥ s.Rules.Breaks.Duration then
        let s := { s with Remaining := wrap64 (s.Rules.Pomodori.Duration - s.Elapsed) }
        let s := { s with Breaks := wrap64 (s.Breaks + 1) }
        let s := { s with Status := Working }
        let s := { s with Elapsed := 0 }
        let s := { s with Remaining := wrap64 (s.Rules.Breaks.Duration - s.Elapsed) }
        .returned false { s with Lock := s.Lock.Unlock }
      else
        .returned false { s with Lock := s.Lock.Unlock }

/-- What the `select` of `Run` receives: a value on `Cancel`, or a tick of the ticker
(with the clock reading during that tick). -/
inductive Event where
  | cancel
  | tick (now : Time)
deriving DecidableEq, Repr

/-- How far `Run` got on the events it was given. -/
inductive RunResult where
  | exited (s : Session)
  | waiting (s : Session)
  | blocked (s : Session)
deriving DecidableEq, Repr

/-- The `for { select { ... } }` loop of `Run`. Which case of the `select` fires is given
by the event list; the values travelling through the channel are not part of the
session value. -/
def Run.loop (s : Session) : List Event → RunResult
  | [] => .waiting s
  | .cancel :: _ => .exited s
  | .tick now :: es =>
    match update s now with
    | .returned true s => .exited s
    | .returned false s => Run.loop s es
    | .blocked s => .blocked s

/-- Run starts a ticker within a session. -/
def Run (s : Session) (es : List Event) : RunResult :=
  Run.loop { s with Running := true } es

/-! ## Call sequences -/

/-- One call on a session by a client of the package. -/
inductive Op where
  | start (now : Time)
  | update (now : Time)
  | toggle
  | terminate (now : Time)
deriving DecidableEq, Repr

/-- The session after one call. -/
def Op.apply (s : Session) : Op → Session
  | .start now => Start s now
  | .update now => (Calabash.update s now).state
  | .toggle => (Toogle s).state
  | .terminate now => (Terminate s now).state

/-- The session after a sequence of calls. -/
def exec (s : Session) (ops : List Op) : Session :=
  ops.foldl Op.apply s


/-- Every `update` call of the sequence is made while `Running` is false, and the
sequence has no other calls than `update` and `Toogle`. -/
def onlyPausedTicks : Session → List Op → Bool
  | _, [] => true
  | s, .update now :: ops => !s.Running && onlyPausedTicks (Op.apply s (.update now)) ops
  | s, .toggle :: ops => onlyPausedTicks (Op.apply s .toggle) ops
  | _, _ => false

/-- Every `Start` call of the sequence is made on a session that is not finished. -/
def startsOnUnfinished : Session → List Op → Bool
  | _, [] => true
  | s, .start now :: ops => !s.Finished && startsOnUnfinished (Op.apply s (.start now)) ops
  | s, op :: ops => startsOnUnfinished (Op.apply s op) ops

/-- The session of an uninterrupted run after `n` ticks, for rules with `R` work rounds
of `w` seconds and breaks of `b` seconds: in work round `i` (`n = i(w+b) + e`), in the
short break after it (`n = i(w+b) + w + e`), or in the long break after the last round. -/
def AtTick (r : Rules) (R w b n : Nat) (s : Session) : Prop :=
  s.Running = true ∧ s.Lock = RWMutex.free ∧ s.Rules = r ∧
  s.Started = true ∧ s.Finished = false ∧
  ∃ i e : Nat,
    (s.Status = Working ∧ s.LongBreak = false ∧ s.Pomodori = i ∧ s.Breaks = i ∧
      s.Elapsed = (e : Int) * Second ∧ i < R ∧ e < w ∧ n = i * (w + b) + e) ∨
    (s.Status = Break ∧ s.LongBreak = false ∧ s.Pomodori = (i : Int) + 1 ∧ s.Breaks = i ∧
      s.Elapsed = (e : Int) * Second ∧ i + 1 < R ∧ e < b ∧ n = i * (w + b) + w + e) ∨
    (s.Status = Break ∧ s.LongBreak = true ∧ s.Pomodori = R ∧ s.Breaks = i ∧
      s.Elapsed = (e : Int) * Second ∧ i + 1 = R ∧ e < 4 * b ∧ n = i * (w + b) + w + e)

/-- The number of the tick that completes the long break. -/
def lastTick (R w b : Nat) : Nat := R * w + (R - 1) * b + 4 * b

/-- The session as `Run` left it, wherever it got. -/
def RunResult.state : RunResult → Session
  | .exited s => s
  | .waiting s => s
  | .blocked s => s

/-- The sequence has no `Start` call. -/
def noStart (ops : List Op) : Bool :=
  ops.all fun op => match op with
    | .start _ => false
    | _ => true

/-- The session with `Rules.Breaks.Rounds` replaced by `n`. -/
def withBreakRounds (n : Int) (s : Session) : Session :=
  { s with Rules := { s.Rules with Breaks := { s.Rules.Breaks with Rounds := n } } }

/-- An outcome with the session replaced by its image under `f`. -/
def Outcome.mapState {α : Type} (f : Session → Session) : Outcome α → Outcome α
  | .returned v s => .returned v (f s)
  | .blocked s => .blocked (f s)

/-- The relation between the counters, the phase and `LongBreak` that every call keeps. -/
def CountersOK (s : Session) : Prop :=
  0 ≤ s.Breaks ∧
  ((s.Status = Working ∧ s.LongBreak = false ∧ s.Breaks = s.Pomodori ∧
      s.Pomodori < s.Rules.Pomodori.Rounds) ∨
    (s.Status = Break ∧ s.Pomodori = s.Breaks + 1 ∧ s.Pomodori ≤ s.Rules.Pomodori.Rounds ∧
      (s.LongBreak = true ↔ s.Pomodori = s.Rules.Pomodori.Rounds)))

/-- For breaks of `b` seconds: in the long break `Elapsed` is a whole number `k` of
seconds with `k <= 4b`, and `k < 4b` unless a writer holds the lock. -/
def LongBreakOK (b : Nat) (s : Session) : Prop :=
  s.Status ≠ Working → s.LongBreak = true →
    ∃ k : Nat, s.Elapsed = (k : Int) * Second ∧ k ≤ 4 * b ∧
      (s.Lock.writer = false → k < 4 * b)

/-! ## Basic facts -/

theorem RWMutex.Lock_free :
    RWMutex.Lock { writer := false, readers := 0 } = some { writer := true, readers := 0 } := rfl

theorem RWMutex.Lock_eq_some {m l : RWMutex} (h : m.Lock = some l) :
    m = RWMutex.free ∧ l = { writer := true, readers := 0 } := by
  obtain ⟨w, r⟩ := m
  unfold RWMutex.Lock at h
  split_ifs at h with hc
  simp only [Option.some.injEq] at h
  simp only at hc
  obtain ⟨hw, hr⟩ := hc
  subst hw hr h
  exact ⟨rfl, rfl⟩

theorem RWMutex.Lock_eq_none {m : RWMutex} (h : m ≠ RWMutex.free) : m.Lock = none := by
  cases hl : m.Lock with
  | none => rfl
  | some l => exact absurd (RWMutex.Lock_eq_some hl).1 h

theorem Toogle_free (s : Session) (h : s.Lock = RWMutex.free) :
    Toogle s = .returned () { s with Running := !s.Running } := by
  obtain ⟨e, r, sa, fa, ru, st, fi, stt, p, b, lb, rl, l, c⟩ := s
  simp only at h
  subst h
  rfl

theorem Toogle_held (s : Session) (h : s.Lock ≠ RWMutex.free) : Toogle s = .blocked s := by
  simp [Toogle, RWMutex.Lock_eq_none h]

theorem Terminate_free (s : Session) (now : Time) (h : s.Lock = RWMutex.free) :
    Terminate s now = .returned ()
      { s with Running := false, Started := false, Finished := true, FinishedAt := now } := by
  obtain ⟨e, r, sa, fa, ru, st, fi, stt, p, b, lb, rl, l, c⟩ := s
  simp only at h
  subst h
  rfl

theorem Terminate_held (s : Session) (now : Time) (h : s.Lock ≠ RWMutex.free) :
    Terminate s now = .blocked s := by
  simp [Terminate, RWMutex.Lock_eq_none h]

theorem update_paused (s : Session) (now : Time) (h : s.Running = false) :
    update s now = .returned false s := by
  simp [update, h]

theorem update_held (s : Session) (now : Time) (h : s.Lock ≠ RWMutex.free) (hr : s.Running = true) :
    update s now = .blocked s := by
  simp [update, RWMutex.Lock_eq_none h, hr]


/-! ## `int64` arithmetic -/

theorem wrap64_eq {x : Int} (h : inInt64 x) : wrap64 x = x := by
  unfold inInt64 at h
  unfold wrap64
  omega

theorem wrap64_inInt64 (x : Int) : inInt64 (wrap64 x) := by
  unfold inInt64 wrap64
  omega

theorem wrap64_zero_sub (x : Int) (h : inInt64 x) : wrap64 (x - 0) = x := by
  rw [Int.sub_zero]; exact wrap64_eq h

/-! ## The running cases of `update` -/

theorem update_work_stay (s : Session) (now : Time) (hr : s.Running = true)
    (hl : s.Lock = RWMutex.free) (hs : s.Status = Working)
    (he : wrap64 (s.Elapsed + Second) < s.Rules.Pomodori.Duration) :
    update s now = .returned false
      { s with Elapsed := wrap64 (s.Elapsed + Second),
               Remaining := wrap64 (s.Rules.Pomodori.Duration - wrap64 (s.Elapsed + Second)) } := by
  obtain ⟨e, r, sa, fa, ru, st, fi, stt, p, b, lb, rl, l, c⟩ := s
  simp only at hr hl hs he
  subst hr hl hs
  simp [update, RWMutex.Lock_free, RWMutex.Unlock, RWMutex.free, he]

theorem update_work_flip (s : Session) (now : Time) (hr : s.Running = true)
    (hl : s.Lock = RWMutex.free) (hs : s.Status = Working)
    (he : s.Rules.Pomodori.Duration ≤ wrap64 (s.Elapsed + Second)) :
    update s now = .returned false
      { s with Elapsed := 0,
               Remaining := wrap64 (s.Rules.Pomodori.Duration - wrap64 (s.Elapsed + Second)),
               Pomodori := wrap64 (s.Pomodori + 1),
               LongBreak := if wrap64 (s.Pomodori + 1) = s.Rules.Pomodori.Rounds then true
                            else s.LongBreak,
               Status := Break } := by
  obtain ⟨e, r, sa, fa, ru, st, fi, stt, p, b, lb, rl, l, c⟩ := s
  simp only at hr hl hs he
  subst hr hl hs
  by_cases hp : wrap64 (p + 1) = rl.Pomodori.Rounds <;>
    simp [update, RWMutex.Lock_free, RWMutex.Unlock, RWMutex.free, he, hp]

theorem update_long_stay (s : Session) (now : Time) (hr : s.Running = true)
    (hl : s.Lock = RWMutex.free) (hs : s.Status ≠ Working) (hb : s.LongBreak = true)
    (he : wrap64 (s.Elapsed + Second) < wrap64 (s.Rules.Breaks.Duration * 4)) :
    update s now = .returned false
      { s with Elapsed := wrap64 (s.Elapsed + Second),
               Remaining := wrap64 (wrap64 (s.Rules.Pomodori.Duration * 4)
                 - wrap64 (s.Elapsed + Second)) } := by
  obtain ⟨e, r, sa, fa, ru, st, fi, stt, p, b, lb, rl, l, c⟩ := s
  simp only at hr hl hs hb he
  subst hr hl hb
  simp [update, RWMutex.Lock_free, RWMutex.Unlock, RWMutex.free, he, hs]

theorem update_long_done (s : Session) (now : Time) (hr : s.Running = true)
    (hl : s.Lock = RWMutex.free) (hs : s.Status ≠ Working) (hb : s.LongBreak = true)
    (he : wrap64 (s.Rules.Breaks.Duration * 4) ≤ wrap64 (s.Elapsed + Second)) :
    update s now = .blocked
      { s with Elapsed := wrap64 (s.Elapsed + Second),
               Remaining := wrap64 (wrap64 (s.Rules.Pomodori.Duration * 4)
                 - wrap64 (s.Elapsed + Second)),
               Lock := { writer := true, readers := 0 } } := by
  obtain ⟨e, r, sa, fa, ru, st, fi, stt, p, b, lb, rl, l, c⟩ := s
  simp only at hr hl hs hb he
  subst hr hl hb
  simp [update, RWMutex.Lock_free, RWMutex.Unlock, RWMutex.free, he, hs, Terminate, RWMutex.Lock]

theorem update_short_stay (s : Session) (now : Time) (hr : s.Running = true)
    (hl : s.Lock = RWMutex.free) (hs : s.Status ≠ Working) (hb : s.LongBreak = false)
    (he : wrap64 (s.Elapsed + Second) < s.Rules.Breaks.Duration) :
    update s now = .returned false { s with Elapsed := wrap64 (s.Elapsed + Second) } := by
  obtain ⟨e, r, sa, fa, ru, st, fi, stt, p, b, lb, rl, l, c⟩ := s
  simp only at hr hl hs hb he
  subst hr hl hb
  simp [update, RWMutex.Lock_free, RWMutex.Unlock, RWMutex.free, he, hs]

theorem update_short_flip (s : Session) (now : Time) (hr : s.Running = true)
    (hl : s.Lock = RWMutex.free) (hs : s.Status ≠ Working) (hb : s.LongBreak = false)
    (he : s.Rules.Breaks.Duration ≤ wrap64 (s.Elapsed + Second)) :
    update s now = .returned false
      { s with Elapsed := 0, Remaining := wrap64 (s.Rules.Breaks.Duration - 0),
               Breaks := wrap64 (s.Breaks + 1), Status := Working } := by
  obtain ⟨e, r, sa, fa, ru, st, fi, stt, p, b, lb, rl, l, c⟩ := s
  simp only at hr hl hs hb he
  subst hr hl hb
  simp [update, RWMutex.Lock_free, RWMutex.Unlock, RWMutex.free, he, hs]

/-- Case analysis on one `update` call: the paused call, the call that finds the lock
taken, and the six running cases. -/
theorem update_cases (s : Session) (now : Time) (P : Outcome Bool → Prop)
    (paused : s.Running = false → P (.returned false s))
    (held : s.Running = true → s.Lock ≠ RWMutex.free → P (.blocked s))
    (workStay : s.Running = true → s.Lock = RWMutex.free → s.Status = Working →
      wrap64 (s.Elapsed + Second) < s.Rules.Pomodori.Duration →
      P (.returned false
        { s with Elapsed := wrap64 (s.Elapsed + Second),
                 Remaining :=
                   wrap64 (s.Rules.Pomodori.Duration - wrap64 (s.Elapsed + Second)) }))
    (workFlip : s.Running = true → s.Lock = RWMutex.free → s.Status = Working →
      s.Rules.Pomodori.Duration ≤ wrap64 (s.Elapsed + Second) →
      P (.returned false
        { s with Elapsed := 0,
                 Remaining :=
                   wrap64 (s.Rules.Pomodori.Duration - wrap64 (s.Elapsed + Second)),
                 Pomodori := wrap64 (s.Pomodori + 1),
                 LongBreak := if wrap64 (s.Pomodori + 1) = s.Rules.Pomodori.Rounds then true
                              else s.LongBreak,
                 Status := Break }))
    (longStay : s.Running = true → s.Lock = RWMutex.free → s.Status ≠ Working →
      s.LongBreak = true →
      wrap64 (s.Elapsed + Second) < wrap64 (s.Rules.Breaks.Duration * 4) →
      P (.returned false
        { s with Elapsed := wrap64 (s.Elapsed + Second),
                 Remaining := wrap64 (wrap64 (s.Rules.Pomodori.Duration * 4)
                   - wrap64 (s.Elapsed + Second)) }))
    (longDone : s.Running = true → s.Lock = RWMutex.free → s.Status ≠ Working →
      s.LongBreak = true →
      wrap64 (s.Rules.Breaks.Duration * 4) ≤ wrap64 (s.Elapsed + Second) →
      P (.blocked
        { s with Elapsed := wrap64 (s.Elapsed + Second),
                 Remaining := wrap64 (wrap64 (s.Rules.Pomodori.Duration * 4)
                   - wrap64 (s.Elapsed + Second)),
                 Lock := { writer := true, readers := 0 } }))
    (shortStay : s.Running = true → s.Lock = RWMutex.free → s.Status ≠ Working →
      s.LongBreak = false → wrap64 (s.Elapsed + Second) < s.Rules.Breaks.Duration →
      P (.returned false { s with Elapsed := wrap64 (s.Elapsed + Second) }))
    (shortFlip : s.Running = true → s.Lock = RWMutex.free → s.Status ≠ Working →
      s.LongBreak = false → s.Rules.Breaks.Duration ≤ wrap64 (s.Elapsed + Second) →
      P (.returned false
        { s with Elapsed := 0, Remaining := wrap64 (s.Rules.Breaks.Duration - 0),
                 Breaks := wrap64 (s.Breaks + 1), Status := Working })) :
    P (update s now) := by
  by_cases hr : s.Running = true
  swap
  · have hr' : s.Running = false := by simpa using hr
    rw [update_paused s now hr']; exact paused hr'
  by_cases hl : s.Lock = RWMutex.free
  swap
  · rw [update_held s now hl hr]; exact held hr hl
  by_cases hs : s.Status = Working
  · rcases lt_or_le (wrap64 (s.Elapsed + Second)) s.Rules.Pomodori.Duration with he | he
    · rw [update_work_stay s now hr hl hs he]; exact workStay hr hl hs he
    · rw [update_work_flip s now hr hl hs he]; exact workFlip hr hl hs he
  · by_cases hb : s.LongBreak = true
    · rcases lt_or_le (wrap64 (s.Elapsed + Second)) (wrap64 (s.Rules.Breaks.Duration * 4))
        with he | he
      · rw [update_long_stay s now hr hl hs hb he]; exact longStay hr hl hs hb he
      · rw [update_long_done s now hr hl hs hb he]; exact longDone hr hl hs hb he
    · have hb' : s.LongBreak = false := by simpa using hb
      rcases lt_or_le (wrap64 (s.Elapsed + Second)) s.Rules.Breaks.Duration with he | he
      · rw [update_short_stay s now hr hl hs hb' he]; exact shortStay hr hl hs hb' he
      · rw [update_short_flip s now hr hl hs hb' he]; exact shortFlip hr hl hs hb' he

/-! ## The running cases when no result leaves the `int64` range -/

theorem update_work_stay_exact (s : Session) (now : Time) (hr : s.Running = true)
    (hl : s.Lock = RWMutex.free) (hs : s.Status = Working)
    (hw : inInt64 (s.Elapsed + Second))
    (he : s.Elapsed + Second < s.Rules.Pomodori.Duration) :
    update s now = .returned false
      { s with Elapsed := s.Elapsed + Second,
               Remaining := wrap64 (s.Rules.Pomodori.Duration - (s.Elapsed + Second)) } := by
  have h := update_work_stay s now hr hl hs (by rw [wrap64_eq hw]; exact he)
  rw [wrap64_eq hw] at h
  exact h

theorem update_work_flip_exact (s : Session) (now : Time) (hr : s.Running = true)
    (hl : s.Lock = RWMutex.free) (hs : s.Status = Working)
    (hw : inInt64 (s.Elapsed + Second)) (hp : inInt64 (s.Pomodori + 1))
    (he : s.Rules.Pomodori.Duration ≤ s.Elapsed + Second) :
    update s now = .returned false
      { s with Elapsed := 0,
               Remaining := wrap64 (s.Rules.Pomodori.Duration - (s.Elapsed + Second)),
               Pomodori := s.Pomodori + 1,
               LongBreak := if s.Pomodori + 1 = s.Rules.Pomodori.Rounds then true
                            else s.LongBreak,
               Status := Break } := by
  have h := update_work_flip s now hr hl hs (by rw [wrap64_eq hw]; exact he)
  rw [wrap64_eq hw, wrap64_eq hp] at h
  exact h

theorem update_long_stay_exact (s : Session) (now : Time) (hr : s.Running = true)
    (hl : s.Lock = RWMutex.free) (hs : s.Status ≠ Working) (hb : s.LongBreak = true)
    (hw : inInt64 (s.Elapsed + Second)) (h4 : inInt64 (s.Rules.Breaks.Duration * 4))
    (he : s.Elapsed + Second < s.Rules.Breaks.Duration * 4) :
    update s now = .returned false
      { s with Elapsed := s.Elapsed + Second,
               Remaining := wrap64 (wrap64 (s.Rules.Pomodori.Duration * 4)
                 - (s.Elapsed + Second)) } := by
  have h := update_long_stay s now hr hl hs hb
    (by rw [wrap64_eq hw, wrap64_eq h4]; exact he)
  rw [wrap64_eq hw] at h
  exact h

theorem update_long_done_exact (s : Session) (now : Time) (hr : s.Running = true)
    (hl : s.Lock = RWMutex.free) (hs : s.Status ≠ Working) (hb : s.LongBreak = true)
    (hw : inInt64 (s.Elapsed + Second)) (h4 : inInt64 (s.Rules.Breaks.Duration * 4))
    (he : s.Rules.Breaks.Duration * 4 ≤ s.Elapsed + Second) :
    update s now = .blocked
      { s with Elapsed := s.Elapsed + Second,
               Remaining := wrap64 (wrap64 (s.Rules.Pomodori.Duration * 4)
                 - (s.Elapsed + Second)),
               Lock := { writer := true, readers := 0 } } := by
  have h := update_long_done s now hr hl hs hb
    (by rw [wrap64_eq hw, wrap64_eq h4]; exact he)
  rw [wrap64_eq hw] at h
  exact h

theorem update_short_stay_exact (s : Session) (now : Time) (hr : s.Running = true)
    (hl : s.Lock = RWMutex.free) (hs : s.Status ≠ Working) (hb : s.LongBreak = false)
    (hw : inInt64 (s.Elapsed + Second))
    (he : s.Elapsed + Second < s.Rules.Breaks.Duration) :
    update s now = .returned false { s with Elapsed := s.Elapsed + Second } := by
  have h := update_short_stay s now hr hl hs hb (by rw [wrap64_eq hw]; exact he)
  rw [wrap64_eq hw] at h
  exact h

theorem update_short_flip_exact (s : Session) (now : Time) (hr : s.Running = true)
    (hl : s.Lock = RWMutex.free) (hs : s.Status ≠ Working) (hb : s.LongBreak = false)
    (hw : inInt64 (s.Elapsed + Second)) (hb1 : inInt64 (s.Breaks + 1))
    (he : s.Rules.Breaks.Duration ≤ s.Elapsed + Second) :
    update s now = .returned false
      { s with Elapsed := 0, Remaining := wrap64 (s.Rules.Breaks.Duration - 0),
               Breaks := s.Breaks + 1, Status := Working } := by
  have h := update_short_flip s now hr hl hs hb (by rw [wrap64_eq hw]; exact he)
  rw [wrap64_eq hb1] at h
  exact h

/-- A whole number of seconds below a duration that fits in an `int64`, plus one
second, fits in an `int64`. -/
theorem inInt64_next (k d : Nat) (h : k < d)
    (hd : (d : Int) * Second < 9223372036854775808) :
    inInt64 ((k : Int) * Second + Second) := by
  unfold inInt64 Second at *
  omega

/-! ## Frame facts for call sequences -/

theorem exec_cons (s : Session) (op : Op) (ops : List Op) :
    exec s (op :: ops) = exec (op.apply s) ops := rfl

theorem exec_update_paused (s : Session) (h : s.Running = false) (ts : List Time) :
    exec s (ts.map Op.update) = s := by
  induction ts with
  | nil => rfl
  | cons t ts ih =>
    simp only [List.map_cons, exec_cons, Op.apply, update_paused s t h, Outcome.state]
    exact ih

theorem update_LongBreak (s : Session) (now : Time) (h : s.LongBreak = true) :
    (update s now).state.LongBreak = true := by
  refine update_cases s now (fun o => o.state.LongBreak = true) ?_ ?_ ?_ ?_ ?_ ?_ ?_ ?_
  all_goals intros
  all_goals simp_all [Outcome.state]

theorem Toogle_state (s : Session) :
    (Toogle s).state = s ∨ (Toogle s).state = { s with Running := !s.Running } := by
  by_cases h : s.Lock = RWMutex.free
  · right; rw [Toogle_free s h]; rfl
  · left; rw [Toogle_held s h]; rfl

theorem Terminate_state (s : Session) (now : Time) :
    (Terminate s now).state = s ∨
    (Terminate s now).state =
      { s with Running := false, Started := false, Finished := true, FinishedAt := now } := by
  by_cases h : s.Lock = RWMutex.free
  · right; rw [Terminate_free s now h]; rfl
  · left; rw [Terminate_held s now h]; rfl

theorem apply_LongBreak (s : Session) (op : Op) (h : s.LongBreak = true) :
    (op.apply s).LongBreak = true := by
  cases op with
  | start now => exact h
  | update now => exact update_LongBreak s now h
  | toggle => rcases Toogle_state s with e | e <;> simp [Op.apply, e, h]
  | terminate now => rcases Terminate_state s now with e | e <;> simp [Op.apply, e, h]

theorem exec_LongBreak (ops : List Op) (s : Session) (h : s.LongBreak = true) :
    (exec s ops).LongBreak = true := by
  induction ops generalizing s with
  | nil => exact h
  | cons op ops ih => exact ih _ (apply_LongBreak s op h)

/-! ## Ticks of the `Run` loop -/

theorem loop_append (s : Session) (es fs : List Event) :
    Run.loop s (es ++ fs) =
      match Run.loop s es with
      | .waiting s' => Run.loop s' fs
      | r => r := by
  induction es generalizing s with
  | nil => rfl
  | cons e es ih =>
    cases e with
    | cancel => rfl
    | tick now =>
      simp only [List.cons_append, Run.loop]
      cases hu : update s now with
      | blocked s' => rfl
      | returned v s' =>
        cases v with
        | true => rfl
        | false => exact ih s'

theorem loop_tick_false (s s' : Session) (now : Time) (es : List Event)
    (h : update s now = .returned false s') :
    Run.loop s (.tick now :: es) = Run.loop s' es := by
  simp [Run.loop, h]

theorem loop_tick_blocked (s s' : Session) (now : Time) (es : List Event)
    (h : update s now = .blocked s') :
    Run.loop s (.tick now :: es) = .blocked s' := by
  simp [Run.loop, h]

theorem Second_lt (a b : Int) : a * Second + Second < b * Second ↔ a + 1 < b := by
  unfold Second
  constructor <;> intro h <;> omega

theorem Second_le (a b : Int) : b * Second ≤ a * Second + Second ↔ b ≤ a + 1 := by
  unfold Second
  constructor <;> intro h <;> omega

/-- While the work period lasts, each tick adds one second to `Elapsed`, recomputes
`Remaining` and changes nothing else. -/
theorem loop_working (ts : List Time) (s : Session) (e d : Nat)
    (hr : s.Running = true) (hl : s.Lock = RWMutex.free) (hs : s.Status = Working)
    (hE : s.Elapsed = e * Second) (hD : s.Rules.Pomodori.Duration = d * Second)
    (hd : (d : Int) * Second < 9223372036854775808)
    (hlt : e + ts.length < d) :
    ∃ s', Run.loop s (ts.map Event.tick) = .waiting s' ∧
      s'.Elapsed = ((e + ts.length : Nat) : Int) * Second ∧
      { s' with Elapsed := 0, Remaining := 0 } = { s with Elapsed := 0, Remaining := 0 } := by
  induction ts generalizing s e with
  | nil => exact ⟨s, rfl, by simpa using hE, rfl⟩
  | cons t ts ih =>
    simp only [List.length_cons] at hlt
    have he : s.Elapsed + Second < s.Rules.Pomodori.Duration := by
      rw [hE, hD, Second_lt]; omega
    have hw : inInt64 (s.Elapsed + Second) := by
      rw [hE]; exact inInt64_next e d (by omega) hd
    obtain ⟨s', h1, h2, h3⟩ := ih
      { s with Elapsed := s.Elapsed + Second,
               Remaining := wrap64 (s.Rules.Pomodori.Duration - (s.Elapsed + Second)) }
      (e + 1) hr hl hs (by simp only [hE]; push_cast; ring) hD (by omega)
    refine ⟨s', ?_, ?_, ?_⟩
    · rw [List.map_cons,
        loop_tick_false s _ t _ (update_work_stay_exact s t hr hl hs hw he)]
      exact h1
    · rw [h2]; simp only [List.length_cons]; congr 2; omega
    · exact h3

/-! ## The full scenario -/

theorem AtTick.lt {r : Rules} {R w b n : Nat} {s : Session} (h : AtTick r R w b n s) :
    n < lastTick R w b := by
  obtain ⟨-, -, -, -, -, i, e, h | h | h⟩ := h
  · obtain ⟨-, -, -, -, -, hi, he, hn⟩ := h
    obtain ⟨k, rfl⟩ : ∃ k, R = i + 1 + k := ⟨R - (i + 1), by omega⟩
    have e1 : i + 1 + k - 1 = i + k := by omega
    simp only [lastTick, e1, hn]
    ring_nf
    omega
  · obtain ⟨-, -, -, -, -, hi, he, hn⟩ := h
    obtain ⟨k, rfl⟩ : ∃ k, R = i + 1 + k := ⟨R - (i + 1), by omega⟩
    have e1 : i + 1 + k - 1 = i + k := by omega
    simp only [lastTick, e1, hn]
    ring_nf
    omega
  · obtain ⟨-, -, -, -, -, hi, he, hn⟩ := h
    subst hi
    simp only [lastTick, Nat.add_sub_cancel, hn]
    ring_nf
    omega

/-- One tick of the scenario: it returns `false` and leads to the next position, or it
is the last tick and never returns. -/
theorem AtTick.step {r : Rules} {R w b n : Nat} {s : Session} (now : Time)
    (hw : 0 < w) (hb : 0 < b)
    (hR : r.Pomodori.Rounds = R) (hW : r.Pomodori.Duration = (w : Int) * Second)
    (hB : r.Breaks.Duration = (b : Int) * Second)
    (hRR : inInt64 (R : Int)) (hwR : inInt64 ((w : Int) * Second))
    (hbR : inInt64 ((b : Int) * Second * 4))
    (h : AtTick r R w b n s) :
    (∃ s', update s now = .returned false s' ∧ AtTick r R w b (n + 1) s') ∨
    (n + 1 = lastTick R w b ∧
      ∃ s', update s now = .blocked s' ∧ s'.Finished = false ∧ s'.Started = true ∧
        s'.Running = true ∧ s'.Pomodori = R ∧ s'.Breaks = (R : Int) - 1 ∧
        s'.Status = Break ∧ s'.Lock.writer = true ∧ s'.LongBreak = true ∧
        s'.Elapsed = ((4 * b : Nat) : Int) * Second ∧ s'.Rules = r) := by
  have hb1 : (b : Int) * Second < 9223372036854775808 := by
    unfold inInt64 Second at hbR
    unfold Second
    omega
  have hb4 : ((4 * b : Nat) : Int) * Second < 9223372036854775808 := by
    unfold inInt64 Second at hbR
    unfold Second
    omega
  obtain ⟨hr, hl, hrl, hst, hfi, i, e, h | h | h⟩ := h
  · obtain ⟨hs, hlb, hp, hbr, hE, hi, he, hn⟩ := h
    left
    by_cases hlt : e + 1 < w
    · have hc : s.Elapsed + Second < s.Rules.Pomodori.Duration := by
        rw [hE, hrl, hW, Second_lt]; omega
      have hx : inInt64 (s.Elapsed + Second) := by rw [hE]; exact inInt64_next e w he hwR.2
      refine ⟨_, update_work_stay_exact s now hr hl hs hx hc, hr, hl, hrl, hst, hfi, i, e + 1,
        Or.inl ?_⟩
      refine ⟨hs, hlb, hp, hbr, ?_, hi, hlt, by omega⟩
      simp only [hE]; push_cast; ring
    · have hc : s.Rules.Pomodori.Duration ≤ s.Elapsed + Second := by
        rw [hE, hrl, hW, Second_le]; omega
      have hx : inInt64 (s.Elapsed + Second) := by rw [hE]; exact inInt64_next e w he hwR.2
      have hy : inInt64 (s.Pomodori + 1) := by
        rw [hp]; unfold inInt64 at *; omega
      refine ⟨_, update_work_flip_exact s now hr hl hs hx hy hc, hr, hl, hrl, hst, hfi, i, 0, ?_⟩
      by_cases hlast : i + 1 = R
      · refine Or.inr (Or.inr ⟨rfl, ?_, ?_, hbr, by simp, hlast, by omega, by omega⟩)
        · have : s.Pomodori + 1 = s.Rules.Pomodori.Rounds := by
            rw [hp, hrl, hR, ← hlast]; push_cast; rfl
          simp [this]
        · simp only [hp, ← hlast]; push_cast; rfl
      · refine Or.inr (Or.inl ⟨rfl, ?_, ?_, hbr, by simp, by omega, hb, by omega⟩)
        · have : ¬ (s.Pomodori + 1 = s.Rules.Pomodori.Rounds) := by
            rw [hp, hrl, hR]; intro hh; apply hlast; exact_mod_cast hh
          simp [this, hlb]
        · simp only [hp]
  · obtain ⟨hs, hlb, hp, hbr, hE, hi, he, hn⟩ := h
    left
    have hs' : s.Status ≠ Working := by rw [hs]; decide
    by_cases hlt : e + 1 < b
    · have hc : s.Elapsed + Second < s.Rules.Breaks.Duration := by
        rw [hE, hrl, hB, Second_lt]; omega
      have hx : inInt64 (s.Elapsed + Second) := by rw [hE]; exact inInt64_next e b he hb1
      refine ⟨_, update_short_stay_exact s now hr hl hs' hlb hx hc, hr, hl, hrl, hst, hfi, i,
        e + 1, Or.inr (Or.inl ?_)⟩
      refine ⟨hs, hlb, hp, hbr, ?_, hi, hlt, by omega⟩
      simp only [hE]; push_cast; ring
    · have hc : s.Rules.Breaks.Duration ≤ s.Elapsed + Second := by
        rw [hE, hrl, hB, Second_le]; omega
      have hx : inInt64 (s.Elapsed + Second) := by rw [hE]; exact inInt64_next e b he hb1
      have hy : inInt64 (s.Breaks + 1) := by
        rw [hbr]; unfold inInt64 at *; omega
      refine ⟨_, update_short_flip_exact s now hr hl hs' hlb hx hy hc, hr, hl, hrl, hst, hfi,
        i + 1, 0, Or.inl ?_⟩
      refine ⟨rfl, hlb, ?_, ?_, by simp, hi, hw, ?_⟩
      · simp only [hp]; push_cast; rfl
      · simp only [hbr]; push_cast; rfl
      · have : e + 1 = b := by omega
        rw [hn, ← this]; ring
  · obtain ⟨hs, hlb, hp, hbr, hE, hi, he, hn⟩ := h
    have hs' : s.Status ≠ Working := by rw [hs]; decide
    by_cases hlt : e + 1 < 4 * b
    · left
      have hc : s.Elapsed + Second < s.Rules.Breaks.Duration * 4 := by
        rw [hE, hrl, hB]
        have := (Second_lt (e : Int) (4 * (b : Int))).2 (by omega)
        linarith
      have hx : inInt64 (s.Elapsed + Second) := by
        rw [hE]; exact inInt64_next e (4 * b) he hb4
      have h4 : inInt64 (s.Rules.Breaks.Duration * 4) := by rw [hrl, hB]; exact hbR
      refine ⟨_, update_long_stay_exact s now hr hl hs' hlb hx h4 hc, hr, hl, hrl, hst, hfi, i,
        e + 1, Or.inr (Or.inr ?_)⟩
      refine ⟨hs, hlb, hp, hbr, ?_, hi, hlt, by omega⟩
      simp only [hE]; push_cast; ring
    · right
      have hc : s.Rules.Breaks.Duration * 4 ≤ s.Elapsed + Second := by
        rw [hE, hrl, hB]
        have := (Second_le (e : Int) (4 * (b : Int))).2 (by omega)
        linarith
      have hx : inInt64 (s.Elapsed + Second) := by
        rw [hE]; exact inInt64_next e (4 * b) he hb4
      have h4 : inInt64 (s.Rules.Breaks.Duration * 4) := by rw [hrl, hB]; exact hbR
      refine ⟨?_, _, update_long_done_exact s now hr hl hs' hlb hx h4 hc, hfi, hst, hr, hp, ?_,
        hs, rfl, hlb, ?_, hrl⟩
      · subst hi
        have : e + 1 = 4 * b := by omega
        simp only [lastTick, Nat.add_sub_cancel, hn]
        rw [show i * (w + b) + w + e + 1 = i * (w + b) + w + (e + 1) by ring, this]
        ring
      · simp only [hbr, ← hi]; push_cast; ring
      · have : 4 * b = e + 1 := by omega
        show s.Elapsed + Second = ((4 * b : Nat) : Int) * Second
        rw [hE, this]; push_cast; ring

/-- Ticks of the scenario that stay before the last tick all return `false`. -/
theorem AtTick.loop {r : Rules} {R w b : Nat} (hw : 0 < w) (hb : 0 < b)
    (hR : r.Pomodori.Rounds = R) (hW : r.Pomodori.Duration = (w : Int) * Second)
    (hB : r.Breaks.Duration = (b : Int) * Second)
    (hRR : inInt64 (R : Int)) (hwR : inInt64 ((w : Int) * Second))
    (hbR : inInt64 ((b : Int) * Second * 4))
    (ts : List Time) (n : Nat) (s : Session) (h : AtTick r R w b n s)
    (hlt : n + ts.length < lastTick R w b) :
    ∃ s', Run.loop s (ts.map Event.tick) = .waiting s' ∧ AtTick r R w b (n + ts.length) s' := by
  induction ts generalizing n s with
  | nil => exact ⟨s, rfl, h⟩
  | cons t ts ih =>
    simp only [List.length_cons] at hlt
    rcases AtTick.step t hw hb hR hW hB hRR hwR hbR h with ⟨s1, h1, h2⟩ | ⟨hlast, -⟩
    · obtain ⟨s', h3, h4⟩ := ih (n + 1) s1 h2 (by omega)
      refine ⟨s', ?_, ?_⟩
      · rw [List.map_cons, loop_tick_false s s1 t _ h1]; exact h3
      · simpa [Nat.add_assoc, Nat.add_comm 1] using h4
    · omega

/-- Ticks of the scenario that reach the last tick: the `update` call of that tick
never returns. -/
theorem AtTick.loop_blocked {r : Rules} {R w b : Nat} (hw : 0 < w) (hb : 0 < b)
    (hR : r.Pomodori.Rounds = R) (hW : r.Pomodori.Duration = (w : Int) * Second)
    (hB : r.Breaks.Duration = (b : Int) * Second)
    (hRR : inInt64 (R : Int)) (hwR : inInt64 ((w : Int) * Second))
    (hbR : inInt64 ((b : Int) * Second * 4))
    (ts : List Time) (n : Nat) (s : Session) (h : AtTick r R w b n s)
    (hge : lastTick R w b ≤ n + ts.length) :
    ∃ s', Run.loop s (ts.map Event.tick) = .blocked s' ∧ s'.Finished = false ∧
      s'.Started = true ∧ s'.Running = true ∧ s'.Pomodori = R ∧ s'.Breaks = (R : Int) - 1 ∧
      s'.Status = Break ∧ s'.Lock.writer = true ∧ s'.LongBreak = true ∧
      s'.Elapsed = ((4 * b : Nat) : Int) * Second ∧ s'.Rules = r := by
  induction ts generalizing n s with
  | nil =>
    have := h.lt
    simp only [List.length_nil] at hge
    omega
  | cons t ts ih =>
    simp only [List.length_cons] at hge
    rcases AtTick.step t hw hb hR hW hB hRR hwR hbR h with ⟨s1, h1, h2⟩ | ⟨-, s1, h1, h2⟩
    · obtain ⟨s', h3, h4⟩ := ih (n + 1) s1 h2 (by omega)
      exact ⟨s', by rw [List.map_cons, loop_tick_false s s1 t _ h1]; exact h3, h4⟩
    · exact ⟨s1, by rw [List.map_cons, loop_tick_blocked s s1 t _ h1], h2⟩

theorem AtTick.init (r : Rules) (R w b : Nat) (t0 : Time) (hR : 0 < R) (hw : 0 < w) :
    AtTick r R w b 0 { Start { NewSession with Rules := r } t0 with Running := true } :=
  ⟨rfl, rfl, rfl, rfl, rfl, 0, 0, Or.inl ⟨rfl, rfl, rfl, rfl, by simp [Start, NewSession], hR, hw, by simp⟩⟩

/-! ## The flags `Started` and `Finished` -/

theorem update_flags (s : Session) (now : Time) :
    (update s now).state.Started = s.Started ∧ (update s now).state.Finished = s.Finished := by
  refine update_cases s now
    (fun o => o.state.Started = s.Started ∧ o.state.Finished = s.Finished)
    ?_ ?_ ?_ ?_ ?_ ?_ ?_ ?_
  all_goals intros
  all_goals exact ⟨rfl, rfl⟩

theorem apply_flags (s : Session) (op : Op)
    (hg : ∀ t, op = .start t → s.Finished = false)
    (h : ¬ (s.Started = true ∧ s.Finished = true)) :
    ¬ ((op.apply s).Started = true ∧ (op.apply s).Finished = true) := by
  cases op with
  | start now =>
    have := hg now rfl
    simp [Op.apply, Start, this]
  | update now =>
    simp only [Op.apply, (update_flags s now).1, (update_flags s now).2]
    exact h
  | toggle =>
    rcases Toogle_state s with e | e <;> simp only [Op.apply, e] <;> exact h
  | terminate now =>
    rcases Terminate_state s now with e | e
    · simp only [Op.apply, e]; exact h
    · simp [Op.apply, e]

/-! ## Paused ticks -/

theorem onlyPausedTicks_frozen (later : List Op) (s : Session)
    (hp : onlyPausedTicks s later = true) :
    { exec s later with Running := false } = { s with Running := false } ∧
    ∀ pre t post, later = pre ++ Op.update t :: post →
      update (exec s pre) t = .returned false (exec s pre) := by
  induction later generalizing s with
  | nil =>
    refine ⟨rfl, ?_⟩
    intro pre t post h
    cases pre <;> simp at h
  | cons op later ih =>
    cases op with
    | start now => simp [onlyPausedTicks] at hp
    | terminate now => simp [onlyPausedTicks] at hp
    | update now =>
      simp only [onlyPausedTicks, Bool.and_eq_true, Bool.not_eq_true'] at hp
      have hs : Op.apply s (.update now) = s := by
        simp only [Op.apply, update_paused s now hp.1, Outcome.state]
      rw [hs] at hp
      obtain ⟨h1, h2⟩ := ih s hp.2
      refine ⟨by rw [exec_cons, hs]; exact h1, ?_⟩
      intro pre t post h
      cases pre with
      | nil =>
        simp only [List.nil_append, List.cons.injEq, Op.update.injEq] at h
        rw [← h.1]
        exact update_paused s now hp.1
      | cons p pre =>
        simp only [List.cons_append, List.cons.injEq] at h
        rw [← h.1, exec_cons, hs]
        exact h2 pre t post h.2
    | toggle =>
      simp only [onlyPausedTicks] at hp
      obtain ⟨h1, h2⟩ := ih _ hp
      refine ⟨?_, ?_⟩
      · rw [exec_cons, h1]
        rcases Toogle_state s with e | e <;> simp only [Op.apply, e]
      · intro pre t post h
        cases pre with
        | nil => simp at h
        | cons p pre =>
          simp only [List.cons_append, List.cons.injEq] at h
          rw [← h.1, exec_cons]
          exact h2 pre t post h.2

/-! ## Exits of the `Run` loop -/

theorem update_not_done (s : Session) (now : Time) (s' : Session) :
    update s now ≠ .returned true s' := by
  refine update_cases s now (fun o => o ≠ .returned true s') ?_ ?_ ?_ ?_ ?_ ?_ ?_ ?_
  all_goals intros
  all_goals simp

theorem loop_flags (es : List Event) (s : Session) :
    (Run.loop s es).state.Started = s.Started ∧
    (Run.loop s es).state.Finished = s.Finished := by
  induction es generalizing s with
  | nil => exact ⟨rfl, rfl⟩
  | cons e es ih =>
    cases e with
    | cancel => exact ⟨rfl, rfl⟩
    | tick now =>
      have hf := update_flags s now
      simp only [Run.loop]
      cases hu : update s now with
      | blocked s1 =>
        rw [hu] at hf
        exact hf
      | returned v s1 =>
        rw [hu] at hf
        cases v with
        | true => exact hf
        | false =>
          simp only
          exact ⟨(ih s1).1.trans hf.1, (ih s1).2.trans hf.2⟩

theorem loop_exited (es : List Event) (s s' : Session) (h : Run.loop s es = .exited s') :
    ∃ pre post,
      (es = pre ++ Event.cancel :: post ∧ Run.loop s pre = .waiting s') ∨
      (∃ t s1, es = pre ++ Event.tick t :: post ∧ Run.loop s pre = .waiting s1 ∧
        update s1 t = .returned true s') := by
  induction es generalizing s with
  | nil => simp [Run.loop] at h
  | cons e es ih =>
    cases e with
    | cancel =>
      simp only [Run.loop, RunResult.exited.injEq] at h
      exact ⟨[], es, Or.inl ⟨rfl, by rw [h]; rfl⟩⟩
    | tick now =>
      simp only [Run.loop] at h
      cases hu : update s now with
      | blocked s1 => rw [hu] at h; simp at h
      | returned v s1 =>
        rw [hu] at h
        cases v with
        | true =>
          simp only [RunResult.exited.injEq] at h
          exact ⟨[], es, Or.inr ⟨now, s, rfl, rfl, by rw [hu, h]⟩⟩
        | false =>
          simp only at h
          obtain ⟨pre, post, h1 | ⟨t, s2, h1, h2, h3⟩⟩ := ih s1 h
          · refine ⟨Event.tick now :: pre, post, Or.inl ⟨by rw [h1.1]; rfl, ?_⟩⟩
            rw [loop_tick_false s s1 now pre hu]; exact h1.2
          · refine ⟨Event.tick now :: pre, post, Or.inr ⟨t, s2, by rw [h1]; rfl, ?_, h3⟩⟩
            rw [loop_tick_false s s1 now pre hu]; exact h2

/-! ## Invariants of call sequences without `Start` -/

theorem update_Rules (s : Session) (now : Time) : (update s now).state.Rules = s.Rules := by
  refine update_cases s now (fun o => o.state.Rules = s.Rules) ?_ ?_ ?_ ?_ ?_ ?_ ?_ ?_
  all_goals intros
  all_goals rfl

theorem apply_Rules (s : Session) (op : Op) : (op.apply s).Rules = s.Rules := by
  cases op with
  | start now => rfl
  | update now => exact update_Rules s now
  | toggle => rcases Toogle_state s with e | e <;> simp only [Op.apply, e]
  | terminate now => rcases Terminate_state s now with e | e <;> simp only [Op.apply, e]

theorem exec_Rules (ops : List Op) (s : Session) : (exec s ops).Rules = s.Rules := by
  induction ops generalizing s with
  | nil => rfl
  | cons op ops ih => rw [exec_cons, ih, apply_Rules]

theorem exec_append (s : Session) (ops more : List Op) :
    exec s (ops ++ more) = exec (exec s ops) more := by
  simp [exec, List.foldl_append]

theorem noStart_cons (op : Op) (ops : List Op) (h : noStart (op :: ops) = true) :
    (∀ t, op ≠ .start t) ∧ noStart ops = true := by
  cases op <;> simp_all [noStart]

theorem noStart_append (ops more : List Op) (h1 : noStart ops = true)
    (h2 : noStart more = true) : noStart (ops ++ more) = true := by
  simp only [noStart, List.all_append, Bool.and_eq_true] at *
  exact ⟨h1, h2⟩

/-- An invariant that `update`, `Toogle` and `Terminate` keep holds after every
sequence of calls without `Start`. -/
theorem exec_invariant (I : Session → Prop)
    (hu : ∀ s now, I s → I (update s now).state)
    (ht : ∀ s, I s → I { s with Running := !s.Running })
    (hf : ∀ s now, I s →
      I { s with Running := false, Started := false, Finished := true, FinishedAt := now })
    (ops : List Op) (s : Session) (h : I s) (hops : noStart ops = true) :
    I (exec s ops) := by
  induction ops generalizing s with
  | nil => exact h
  | cons op ops ih =>
    obtain ⟨hop, hrest⟩ := noStart_cons op ops hops
    rw [exec_cons]
    apply ih _ _ hrest
    cases op with
    | start now => exact absurd rfl (hop now)
    | update now => exact hu s now h
    | toggle =>
      rcases Toogle_state s with e | e
      · simp only [Op.apply, e]; exact h
      · simp only [Op.apply, e]; exact ht s h
    | terminate now =>
      rcases Terminate_state s now with e | e
      · simp only [Op.apply, e]; exact h
      · simp only [Op.apply, e]; exact hf s now h

theorem update_CountersOK (s : Session) (now : Time)
    (hR : inInt64 s.Rules.Pomodori.Rounds) (h : CountersOK s) :
    CountersOK (update s now).state := by
  obtain ⟨h0, h⟩ := h
  refine update_cases s now (fun o => CountersOK o.state) ?_ ?_ ?_ ?_ ?_ ?_ ?_ ?_
  · intro _; exact ⟨h0, h⟩
  · intro _ _; exact ⟨h0, h⟩
  · intro _ _ _ _; exact ⟨h0, h⟩
  · intro _ _ hs _
    rcases h with ⟨-, hb, hbp, hlt⟩ | ⟨hs', -⟩
    · have hw : wrap64 (s.Pomodori + 1) = s.Pomodori + 1 :=
        wrap64_eq (by unfold inInt64 at *; omega)
      refine ⟨h0, Or.inr ⟨rfl, ?_, ?_, ?_⟩⟩
      · show wrap64 (s.Pomodori + 1) = s.Breaks + 1
        rw [hw, hbp]
      · show wrap64 (s.Pomodori + 1) ≤ s.Rules.Pomodori.Rounds
        rw [hw]; omega
      · show (if wrap64 (s.Pomodori + 1) = s.Rules.Pomodori.Rounds then true
            else s.LongBreak) = true ↔ wrap64 (s.Pomodori + 1) = s.Rules.Pomodori.Rounds
        by_cases hp : wrap64 (s.Pomodori + 1) = s.Rules.Pomodori.Rounds
        · simp [hp]
        · simp [hp, hb]
    · rw [hs] at hs'; exact absurd hs' (by decide)
  · intro _ _ _ _ _; exact ⟨h0, h⟩
  · intro _ _ _ _ _; exact ⟨h0, h⟩
  · intro _ _ _ _ _; exact ⟨h0, h⟩
  · intro _ _ hs hb _
    rcases h with ⟨hs', -⟩ | ⟨-, hp, hle, hiff⟩
    · exact absurd hs' hs
    · have hw : wrap64 (s.Breaks + 1) = s.Breaks + 1 :=
        wrap64_eq (by unfold inInt64 at *; omega)
      refine ⟨?_, Or.inl ⟨rfl, hb, ?_, ?_⟩⟩
      · show 0 ≤ wrap64 (s.Breaks + 1)
        rw [hw]; omega
      · show wrap64 (s.Breaks + 1) = s.Pomodori
        rw [hw, hp]
      · show s.Pomodori < s.Rules.Pomodori.Rounds
        have hne : s.Pomodori ≠ s.Rules.Pomodori.Rounds := by
          intro he
          have := hiff.2 he
          rw [hb] at this
          cases this
        omega

theorem exec_CountersOK (ops : List Op) (s : Session)
    (hR : inInt64 s.Rules.Pomodori.Rounds) (h : CountersOK s)
    (hops : noStart ops = true) : CountersOK (exec s ops) := by
  have key := exec_invariant
    (fun x => inInt64 x.Rules.Pomodori.Rounds ∧ CountersOK x)
    (fun x now hx => ⟨by rw [update_Rules]; exact hx.1, update_CountersOK x now hx.1 hx.2⟩)
    (fun _ hx => hx) (fun _ _ hx => hx) ops s ⟨hR, h⟩ hops
  exact key.2

theorem update_LongBreakOK (b : Nat) (hb : 1 ≤ b) (s : Session) (now : Time)
    (hB : s.Rules.Breaks.Duration = (b : Int) * Second)
    (h4 : inInt64 ((b : Int) * Second * 4)) (h : LongBreakOK b s) :
    LongBreakOK b (update s now).state := by
  have hb4 : ((4 * b : Nat) : Int) * Second < 9223372036854775808 := by
    unfold inInt64 Second at h4
    unfold Second
    omega
  have hD4 : wrap64 (s.Rules.Breaks.Duration * 4) = ((4 * b : Nat) : Int) * Second := by
    rw [hB, wrap64_eq h4]; push_cast; ring
  refine update_cases s now (fun o => LongBreakOK b o.state) ?_ ?_ ?_ ?_ ?_ ?_ ?_ ?_
  · intro _; exact h
  · intro _ _; exact h
  · intro _ _ hs _ hn _
    exact absurd hs hn
  · intro _ _ _ _ _ _
    exact ⟨0, by simp [Outcome.state], by omega, fun _ => by omega⟩
  · intro _ hl hs hlb he _ _
    obtain ⟨k, hk, -, hlt⟩ := h hs hlb
    have hk4 : k < 4 * b := hlt (by rw [hl]; rfl)
    have hw : wrap64 (s.Elapsed + Second) = ((k + 1 : Nat) : Int) * Second := by
      rw [hk, wrap64_eq (inInt64_next k (4 * b) hk4 hb4)]; push_cast; ring
    rw [hw, hD4] at he
    have hlt2 : k + 1 < 4 * b := by
      unfold Second at he
      omega
    exact ⟨k + 1, hw, by omega, fun _ => hlt2⟩
  · intro _ hl hs hlb _ _ _
    obtain ⟨k, hk, -, hlt⟩ := h hs hlb
    have hk4 : k < 4 * b := hlt (by rw [hl]; rfl)
    have hw : wrap64 (s.Elapsed + Second) = ((k + 1 : Nat) : Int) * Second := by
      rw [hk, wrap64_eq (inInt64_next k (4 * b) hk4 hb4)]; push_cast; ring
    refine ⟨k + 1, hw, by omega, fun hx => ?_⟩
    simp [Outcome.state] at hx
  · intro _ _ _ hlb _ _ hx
    simp only [Outcome.state] at hx
    rw [hlb] at hx
    cases hx
  · intro _ _ _ _ _ hn _
    exact absurd rfl hn

theorem exec_LongBreakOK (b : Nat) (hb : 1 ≤ b) (ops : List Op) (s : Session)
    (hB : s.Rules.Breaks.Duration = (b : Int) * Second)
    (h4 : inInt64 ((b : Int) * Second * 4)) (h : LongBreakOK b s)
    (hops : noStart ops = true) : LongBreakOK b (exec s ops) := by
  have key := exec_invariant
    (fun x => x.Rules.Breaks.Duration = (b : Int) * Second ∧ LongBreakOK b x)
    (fun x now hx => ⟨by rw [update_Rules]; exact hx.1, update_LongBreakOK b hb x now hx.1 h4 hx.2⟩)
    (fun _ hx => hx) (fun _ _ hx => hx) ops s ⟨hB, h⟩ hops
  exact key.2

/-! ## The session after a call that never returns -/

/-- With the lock taken and `Running` true, every call but `Start` waits for the lock
and leaves the session as it is. -/
theorem apply_stuck (s : Session) (op : Op) (hl : s.Lock ≠ RWMutex.free)
    (hr : s.Running = true) (hop : ∀ t, op ≠ .start t) : op.apply s = s := by
  cases op with
  | start now => exact absurd rfl (hop now)
  | update now => simp only [Op.apply, update_held s now hl hr, Outcome.state]
  | toggle => simp only [Op.apply, Toogle_held s hl, Outcome.state]
  | terminate now => simp only [Op.apply, Terminate_held s now hl, Outcome.state]

theorem exec_stuck (ops : List Op) (s : Session) (hl : s.Lock ≠ RWMutex.free)
    (hr : s.Running = true) (hops : noStart ops = true) : exec s ops = s := by
  induction ops with
  | nil => rfl
  | cons op ops ih =>
    obtain ⟨hop, hrest⟩ := noStart_cons op ops hops
    rw [exec_cons, apply_stuck s op hl hr hop]
    exact ih hrest

theorem update_blocked (s s' : Session) (now : Time) (h : update s now = .blocked s') :
    s'.Lock ≠ RWMutex.free ∧ s'.Running = true := by
  revert h
  refine update_cases s now
    (fun o => o = .blocked s' → s'.Lock ≠ RWMutex.free ∧ s'.Running = true)
    ?_ ?_ ?_ ?_ ?_ ?_ ?_ ?_
  · intro _ h; cases h
  · intro hr hl h
    cases h
    exact ⟨hl, hr⟩
  · intro _ _ _ _ h; cases h
  · intro _ _ _ _ h; cases h
  · intro _ _ _ _ _ h; cases h
  · intro hr _ _ _ _ h
    cases h
    exact ⟨by simp [RWMutex.free], hr⟩
  · intro _ _ _ _ _ h; cases h
  · intro _ _ _ _ _ h; cases h

theorem noStart_updates (ts : List Time) : noStart (ts.map Op.update) = true := by
  induction ts with
  | nil => rfl
  | cons t ts ih => simp [noStart]

/-- A run that receives ticks only leaves the session that the same `update` calls
leave. -/
theorem loop_state_exec (ts : List Time) (s : Session) :
    (Run.loop s (ts.map Event.tick)).state = exec s (ts.map Op.update) := by
  induction ts generalizing s with
  | nil => rfl
  | cons t ts ih =>
    simp only [List.map_cons, exec_cons, Op.apply, Run.loop]
    cases hu : update s t with
    | blocked s1 =>
      obtain ⟨hl, hr⟩ := update_blocked s s1 t hu
      simp only [Outcome.state, RunResult.state]
      exact (exec_stuck _ s1 hl hr (noStart_updates ts)).symm
    | returned v s1 =>
      cases v with
      | true => exact absurd hu (update_not_done s t s1)
      | false =>
        simp only [Outcome.state]
        exact ih s1

/-! ## Independence of `Rules.Breaks.Rounds` -/

theorem update_withBreakRounds (n : Int) (s : Session) (now : Time) :
    update (withBreakRounds n s) now = (update s now).mapState (withBreakRounds n) := by
  refine update_cases s now
    (fun o => update (withBreakRounds n s) now = o.mapState (withBreakRounds n))
    ?_ ?_ ?_ ?_ ?_ ?_ ?_ ?_
  · intro hr
    exact update_paused (withBreakRounds n s) now hr
  · intro hr hl
    exact update_held (withBreakRounds n s) now hl hr
  · intro hr hl hs he
    rw [update_work_stay (withBreakRounds n s) now hr hl hs he]; rfl
  · intro hr hl hs he
    rw [update_work_flip (withBreakRounds n s) now hr hl hs he]; rfl
  · intro hr hl hs hb he
    rw [update_long_stay (withBreakRounds n s) now hr hl hs hb he]; rfl
  · intro hr hl hs hb he
    rw [update_long_done (withBreakRounds n s) now hr hl hs hb he]; rfl
  · intro hr hl hs hb he
    rw [update_short_stay (withBreakRounds n s) now hr hl hs hb he]; rfl
  · intro hr hl hs hb he
    rw [update_short_flip (withBreakRounds n s) now hr hl hs hb he]; rfl

theorem Toogle_withBreakRounds (n : Int) (s : Session) :
    Toogle (withBreakRounds n s) = (Toogle s).mapState (withBreakRounds n) := by
  by_cases hl : s.Lock = RWMutex.free
  · rw [Toogle_free (withBreakRounds n s) hl, Toogle_free s hl]; rfl
  · rw [Toogle_held (withBreakRounds n s) hl, Toogle_held s hl]; rfl

theorem Terminate_withBreakRounds (n : Int) (s : Session) (now : Time) :
    Terminate (withBreakRounds n s) now = (Terminate s now).mapState (withBreakRounds n) := by
  by_cases hl : s.Lock = RWMutex.free
  · rw [Terminate_free (withBreakRounds n s) now hl, Terminate_free s now hl]; rfl
  · rw [Terminate_held (withBreakRounds n s) now hl, Terminate_held s now hl]; rfl

theorem mapState_state {α : Type} (f : Session → Session) (o : Outcome α) :
    (o.mapState f).state = f o.state := by
  cases o <;> rfl

theorem apply_withBreakRounds (n : Int) (s : Session) (op : Op) :
    op.apply (withBreakRounds n s) = withBreakRounds n (op.apply s) := by
  cases op with
  | start now => rfl
  | update now => simp only [Op.apply, update_withBreakRounds, mapState_state]
  | toggle => simp only [Op.apply, Toogle_withBreakRounds, mapState_state]
  | terminate now => simp only [Op.apply, Terminate_withBreakRounds, mapState_state]

theorem exec_withBreakRounds (n : Int) (ops : List Op) (s : Session) :
    exec (withBreakRounds n s) ops = withBreakRounds n (exec s ops) := by
  induction ops generalizing s with
  | nil => rfl
  | cons op ops ih => rw [exec_cons, exec_cons, apply_withBreakRounds, ih]

/-! ## Claims -/

/-- C1: with `Running == false`, `update` returns `false` and leaves the whole session
unchanged; so after `Toogle` on a running session (which returns when the lock is
free and leaves `Running == false`), any number of `update` ticks leaves the session,
in particular `Elapsed` and `Status`, exactly as it was. -/
theorem update_not_running :
    (∀ (s : Session) (now : Time), s.Running = false → update s now = .returned false s) ∧
    (∀ (s : Session), s.Running = true → s.Lock = RWMutex.free →
      ∃ s', Toogle s = .returned () s' ∧ s'.Running = false ∧
        s'.Elapsed = s.Elapsed ∧ s'.Status = s.Status ∧
        ∀ ts : List Time,
          exec s' (ts.map Op.update) = s' ∧
          (exec s' (ts.map Op.update)).Elapsed = s.Elapsed ∧
          (exec s' (ts.map Op.update)).Status = s.Status) := by
  refine ⟨update_paused, ?_⟩
  intro s hr hl
  refine ⟨{ s with Running := !s.Running }, Toogle_free s hl, by simp [hr], rfl, rfl, ?_⟩
  intro ts
  have h := exec_update_paused { s with Running := !s.Running } (by simp [hr]) ts
  rw [h]
  exact ⟨rfl, rfl, rfl⟩

/-- A paused session and a running one with a free lock, for C1. -/
theorem update_not_running_witness :
    update NewSession 5 = .returned false NewSession ∧
    ∃ s', Toogle { NewSession with Running := true } = .returned () s' ∧ s'.Running = false ∧
      s'.Elapsed = 0 ∧ s'.Status = 0 ∧
      ∀ ts : List Time,
        exec s' (ts.map Op.update) = s' ∧
        (exec s' (ts.map Op.update)).Elapsed = 0 ∧
        (exec s' (ts.map Op.update)).Status = 0 :=
  ⟨update_not_running.1 NewSession 5 rfl,
   update_not_running.2 { NewSession with Running := true } rfl rfl⟩

/-- C2 (what the code does): for rules with `R >= 1` work rounds of `w >= 1` seconds
and breaks of `b >= 1` seconds (values of an `int64`, four break durations too), a fresh
session that is started and run sees `update`
return `false` on every tick before tick `R*w + (R-1)*b + 4*b`; on that tick `update`
takes the long-break completion path and never returns: it calls `Terminate` while it
holds the lock. The session then has `Pomodori == R` and `Breaks == R-1`, but
`Finished == false`, `Started == true` and `Running == true`, and `Run` does not exit
on any number of ticks. With the test rules the last tick is tick 55. -/
theorem full_scenario_last_tick_blocks :
    (∀ (r : Rules) (R w b : Nat) (t0 : Time) (ts : List Time),
      1 ≤ R → 1 ≤ w → 1 ≤ b → r.Pomodori.Rounds = R →
      r.Pomodori.Duration = (w : Int) * Second → r.Breaks.Duration = (b : Int) * Second →
      inInt64 r.Pomodori.Rounds → inInt64 r.Pomodori.Duration →
      inInt64 (r.Breaks.Duration * 4) →
      (ts.length < R * w + (R - 1) * b + 4 * b →
        ∃ s, Run (Start { NewSession with Rules := r } t0) (ts.map Event.tick) = .waiting s) ∧
      (R * w + (R - 1) * b + 4 * b ≤ ts.length →
        ∃ s, Run (Start { NewSession with Rules := r } t0) (ts.map Event.tick) = .blocked s ∧
          s.Finished = false ∧ s.Started = true ∧ s.Running = true ∧
          s.Pomodori = R ∧ s.Breaks = (R : Int) - 1 ∧ s.Status = Break ∧
          s.Lock.writer = true) ∧
      (∀ s, Run (Start { NewSession with Rules := r } t0) (ts.map Event.tick) ≠ .exited s)) ∧
    (∀ (t0 : Time) (ts : List Time),
      (ts.length < 55 →
        ∃ s, Run (Start NewSession t0) (ts.map Event.tick) = .waiting s) ∧
      (ts.length = 55 →
        ∃ s, Run (Start NewSession t0) (ts.map Event.tick) = .blocked s ∧
          s.Finished = false ∧ s.Started = true ∧ s.Running = true ∧
          s.Pomodori = 4 ∧ s.Breaks = 3) ∧
      (∀ s, Run (Start NewSession t0) (ts.map Event.tick) ≠ .exited s)) := by
  have general : ∀ (r : Rules) (R w b : Nat) (t0 : Time) (ts : List Time),
      1 ≤ R → 1 ≤ w → 1 ≤ b → r.Pomodori.Rounds = R →
      r.Pomodori.Duration = (w : Int) * Second → r.Breaks.Duration = (b : Int) * Second →
      inInt64 r.Pomodori.Rounds → inInt64 r.Pomodori.Duration →
      inInt64 (r.Breaks.Duration * 4) →
      (ts.length < R * w + (R - 1) * b + 4 * b →
        ∃ s, Run (Start { NewSession with Rules := r } t0) (ts.map Event.tick) = .waiting s) ∧
      (R * w + (R - 1) * b + 4 * b ≤ ts.length →
        ∃ s, Run (Start { NewSession with Rules := r } t0) (ts.map Event.tick) = .blocked s ∧
          s.Finished = false ∧ s.Started = true ∧ s.Running = true ∧
          s.Pomodori = R ∧ s.Breaks = (R : Int) - 1 ∧ s.Status = Break ∧
          s.Lock.writer = true) ∧
      (∀ s, Run (Start { NewSession with Rules := r } t0) (ts.map Event.tick) ≠ .exited s) := by
    intro r R w b t0 ts hR hw hb hRr hW hB hRR hwR hbR
    rw [hRr] at hRR
    rw [hW] at hwR
    rw [hB] at hbR
    have h0 := AtTick.init r R w b t0 hR hw
    have before : ts.length < R * w + (R - 1) * b + 4 * b →
        ∃ s, Run (Start { NewSession with Rules := r } t0) (ts.map Event.tick) = .waiting s := by
      intro hlt
      obtain ⟨s, h1, -⟩ := AtTick.loop hw hb hRr hW hB hRR hwR hbR ts 0 _ h0
        (by simpa [lastTick] using hlt)
      exact ⟨s, h1⟩
    have after : R * w + (R - 1) * b + 4 * b ≤ ts.length →
        ∃ s, Run (Start { NewSession with Rules := r } t0) (ts.map Event.tick) = .blocked s ∧
          s.Finished = false ∧ s.Started = true ∧ s.Running = true ∧
          s.Pomodori = R ∧ s.Breaks = (R : Int) - 1 ∧ s.Status = Break ∧
          s.Lock.writer = true := by
      intro hge
      obtain ⟨s, h1, h2, h3, h4, h5, h6, h7, h8, -⟩ :=
        AtTick.loop_blocked hw hb hRr hW hB hRR hwR hbR ts 0 _ h0
          (by simpa [lastTick] using hge)
      exact ⟨s, h1, h2, h3, h4, h5, h6, h7, h8⟩
    refine ⟨before, after, ?_⟩
    intro s hs
    rcases Nat.lt_or_ge ts.length (R * w + (R - 1) * b + 4 * b) with h | h
    · obtain ⟨s', h1⟩ := before h
      rw [h1] at hs
      cases hs
    · obtain ⟨s', h1, -⟩ := after h
      rw [h1] at hs
      cases hs
  refine ⟨general, ?_⟩
  intro t0 ts
  have h := general NewTestRules 4 5 5 t0 ts (by decide) (by decide) (by decide) rfl
    (by simp [NewTestRules]) (by simp [NewTestRules]) (by decide) (by decide) (by decide)
  refine ⟨?_, ?_, h.2.2⟩
  · intro hlt
    exact h.1 (by simpa using hlt)
  · intro hlen
    obtain ⟨s, h1, h2, h3, h4, h5, h6, -⟩ := h.2.1 (by simp [hlen])
    exact ⟨s, h1, h2, h3, h4, by simpa using h5, by rw [h6]; norm_num⟩

/-- The scenario for one work round of 1 second and a break of 1 second (last tick 5),
and for the test rules (last tick 55), for C2. -/
theorem full_scenario_last_tick_blocks_witness :
    (∃ s, Run (Start { NewSession with
          Rules := { Pomodori := { Rounds := 1, Duration := 1 * Second },
                     Breaks := { Rounds := 1, Duration := 1 * Second } } } 0)
        ([1, 2, 3, 4, 5].map Event.tick) = .blocked s ∧
        s.Finished = false ∧ s.Started = true ∧ s.Running = true ∧
        s.Pomodori = (1 : Nat) ∧ s.Breaks = ((1 : Nat) : Int) - 1 ∧ s.Status = Break ∧
        s.Lock.writer = true) ∧
    (∃ s, Run (Start NewSession 0) ((List.replicate 55 (0 : Time)).map Event.tick) = .blocked s ∧
        s.Finished = false ∧ s.Started = true ∧ s.Running = true ∧
        s.Pomodori = 4 ∧ s.Breaks = 3) :=
  ⟨(full_scenario_last_tick_blocks.1
      { Pomodori := { Rounds := 1, Duration := 1 * Second },
        Breaks := { Rounds := 1, Duration := 1 * Second } } 1 1 1 0 [1, 2, 3, 4, 5]
      (by decide) (by decide) (by decide) rfl (by simp) (by simp)
      (by decide) (by decide) (by decide)).2.1 (by decide),
   (full_scenario_last_tick_blocks.2 0 (List.replicate 55 0)).2.1 (by simp)⟩

/-- C3: a session made by `NewSession` (work 4 x 5s, break 3 x 5s), started and run,
is after each of the first 4 ticks still Working with `Elapsed` the number of ticks in
seconds, and after the 5th tick in Break with `Pomodori == 1`, `Elapsed == 0` and
`LongBreak == false`. For any rules with a work duration of `d >= 1` seconds (a value
of an `int64`) and more than one work round, the same holds with `d` for 5: Working
before the `d`-th tick, flipped by it. -/
theorem first_work_round :
    (∀ (t0 : Time) (ts : List Time), ts.length ≤ 4 →
      ∃ s, Run (Start NewSession t0) (ts.map Event.tick) = .waiting s ∧
        s.Status = Working ∧ s.Elapsed = (ts.length : Int) * Second) ∧
    (∀ (t0 : Time) (ts : List Time), ts.length = 5 →
      ∃ s, Run (Start NewSession t0) (ts.map Event.tick) = .waiting s ∧
        s.Status = Break ∧ s.Pomodori = 1 ∧ s.Elapsed = 0 ∧ s.LongBreak = false) ∧
    (∀ (r : Rules) (d : Nat) (t0 : Time) (ts : List Time),
      1 ≤ d → r.Pomodori.Duration = (d : Int) * Second → inInt64 r.Pomodori.Duration →
      1 < r.Pomodori.Rounds →
      (ts.length < d →
        ∃ s, Run (Start { NewSession with Rules := r } t0) (ts.map Event.tick) = .waiting s ∧
          s.Status = Working ∧ s.Elapsed = (ts.length : Int) * Second ∧ s.Pomodori = 0) ∧
      (ts.length = d →
        ∃ s, Run (Start { NewSession with Rules := r } t0) (ts.map Event.tick) = .waiting s ∧
          s.Status = Break ∧ s.Pomodori = 1 ∧ s.Elapsed = 0 ∧ s.LongBreak = false)) := by
  have general : ∀ (r : Rules) (d : Nat) (t0 : Time) (ts : List Time),
      1 ≤ d → r.Pomodori.Duration = (d : Int) * Second → inInt64 r.Pomodori.Duration →
      1 < r.Pomodori.Rounds →
      (ts.length < d →
        ∃ s, Run (Start { NewSession with Rules := r } t0) (ts.map Event.tick) = .waiting s ∧
          s.Status = Working ∧ s.Elapsed = (ts.length : Int) * Second ∧ s.Pomodori = 0) ∧
      (ts.length = d →
        ∃ s, Run (Start { NewSession with Rules := r } t0) (ts.map Event.tick) = .waiting s ∧
          s.Status = Break ∧ s.Pomodori = 1 ∧ s.Elapsed = 0 ∧ s.LongBreak = false) := by
    intro r d t0 ts hd hD hDR hR
    rw [hD] at hDR
    have before : ∀ us : List Time, us.length < d →
        ∃ s, Run (Start { NewSession with Rules := r } t0) (us.map Event.tick) = .waiting s ∧
          s.Elapsed = (us.length : Int) * Second ∧
          { s with Elapsed := 0, Remaining := 0 }
            = { Start { NewSession with Rules := r } t0 with Running := true } := by
      intro us hlt
      obtain ⟨s, h1, h2, h3⟩ := loop_working us
        { Start { NewSession with Rules := r } t0 with Running := true } 0 d
        rfl rfl rfl (by simp [Start, NewSession]) hD hDR.2 (by omega)
      exact ⟨s, h1, by simpa using h2, h3⟩
    constructor
    · intro hlt
      obtain ⟨s, h1, h2, h3⟩ := before ts hlt
      refine ⟨s, h1, ?_, h2, ?_⟩
      · simpa [Start] using congrArg Session.Status h3
      · simpa [Start, NewSession] using congrArg Session.Pomodori h3
    · intro hlen
      obtain ⟨us, t, rfl⟩ : ∃ us t, ts = us ++ [t] := by
        rcases List.eq_nil_or_concat ts with h | ⟨us, t, h⟩
        · subst h; simp at hlen; omega
        · exact ⟨us, t, by simpa using h⟩
      simp only [List.length_append, List.length_singleton] at hlen
      obtain ⟨s, h1, h2, h3⟩ := before us (by omega)
      have hr : s.Running = true := by simpa [Start] using congrArg Session.Running h3
      have hl : s.Lock = RWMutex.free := by
        simpa [Start, NewSession] using congrArg Session.Lock h3
      have hs : s.Status = Working := by simpa [Start] using congrArg Session.Status h3
      have hp : s.Pomodori = 0 := by simpa [Start, NewSession] using congrArg Session.Pomodori h3
      have hb : s.LongBreak = false := by
        simpa [Start, NewSession] using congrArg Session.LongBreak h3
      have hrl : s.Rules = r := by simpa [Start] using congrArg Session.Rules h3
      have he : s.Rules.Pomodori.Duration ≤ s.Elapsed + Second := by
        rw [hrl, hD, h2, Second_le]; omega
      have hne : ¬ (s.Pomodori + 1 = s.Rules.Pomodori.Rounds) := by
        intro h
        rw [hp, hrl] at h
        omega
      have hx : inInt64 (s.Elapsed + Second) := by
        rw [h2]; exact inInt64_next us.length d (by omega) hDR.2
      have hy : inInt64 (s.Pomodori + 1) := by rw [hp]; decide
      refine ⟨{ s with Elapsed := 0,
                       Remaining := wrap64 (s.Rules.Pomodori.Duration - (s.Elapsed + Second)),
                       Pomodori := s.Pomodori + 1,
                       LongBreak := if s.Pomodori + 1 = s.Rules.Pomodori.Rounds then true
                                    else s.LongBreak,
                       Status := Break }, ?_, rfl, ?_, rfl, ?_⟩
      · rw [List.map_append, Run, loop_append, ← Run, h1]
        simp only [List.map_cons, List.map_nil]
        rw [loop_tick_false _ _ t [] (update_work_flip_exact s t hr hl hs hx hy he)]
        rfl
      · simp [hp]
      · simp [hne, hb]
  refine ⟨?_, ?_, general⟩
  · intro t0 ts hlen
    obtain ⟨s, h1, h2, h3, _⟩ :=
      (general NewTestRules 5 t0 ts (by decide) (by simp [NewTestRules]) (by decide) (by decide)).1 (by omega)
    exact ⟨s, h1, h2, h3⟩
  · intro t0 ts hlen
    exact (general NewTestRules 5 t0 ts (by decide) (by simp [NewTestRules]) (by decide) (by decide)).2 hlen

/-- The first work round of the test rules and of a 2-second work rule, for C3. -/
theorem first_work_round_witness :
    (∃ s, Run (Start NewSession 0) ([1, 2, 3].map Event.tick) = .waiting s ∧
        s.Status = Working ∧ s.Elapsed = 3 * Second) ∧
    (∃ s, Run (Start NewSession 0) ([1, 2, 3, 4, 5].map Event.tick) = .waiting s ∧
        s.Status = Break ∧ s.Pomodori = 1 ∧ s.Elapsed = 0 ∧ s.LongBreak = false) ∧
    (∃ s, Run (Start { NewSession with
          Rules := { Pomodori := { Rounds := 2, Duration := 2 * Second },
                     Breaks := { Rounds := 1, Duration := 1 * Second } } } 0)
        ([1, 2].map Event.tick) = .waiting s ∧
        s.Status = Break ∧ s.Pomodori = 1 ∧ s.Elapsed = 0 ∧ s.LongBreak = false) :=
  ⟨first_work_round.1 0 [1, 2, 3] (by decide),
   first_work_round.2.1 0 [1, 2, 3, 4, 5] rfl,
   (first_work_round.2.2
      { Pomodori := { Rounds := 2, Duration := 2 * Second },
        Breaks := { Rounds := 1, Duration := 1 * Second } } 2 0 [1, 2]
      (by decide) (by simp) (by decide) (by decide)).2 rfl⟩

/-- C4 (as stated, refuted): a running session in Working with `Pomodori` the largest
`int` and one second of work left goes to Break, and `Pomodori` is afterwards the
smallest `int`, not `Pomodori + 1`. -/
theorem update_workCount_counterexample :
    ({ NewSession with Running := true, Elapsed := 4 * Second,
                       Pomodori := 9223372036854775807 } : Session).Status = Working ∧
    (update { NewSession with Running := true, Elapsed := 4 * Second,
                              Pomodori := 9223372036854775807 } 7).state.Status = Break ∧
    (update { NewSession with Running := true, Elapsed := 4 * Second,
                              Pomodori := 9223372036854775807 } 7).state.Pomodori
      = -9223372036854775808 ∧
    (update { NewSession with Running := true, Elapsed := 4 * Second,
                              Pomodori := 9223372036854775807 } 7).state.Pomodori
      ≠ ({ NewSession with Running := true, Elapsed := 4 * Second,
                           Pomodori := 9223372036854775807 } : Session).Pomodori + 1 := by
  decide

/-- C4 (amended): for every session and every `update` call, a call that changes the
phase from Working to Break leaves `Pomodori` at the `int` result of `Pomodori + 1`,
which is `Pomodori + 1` exactly whenever that is a value of an `int` (it is not only
when `Pomodori` is the largest `int`); every other call (paused, staying in Working,
starting in Break, or waiting on the lock) leaves `Pomodori` unchanged. -/
theorem update_workCount (s : Session) (now : Time) :
    ((s.Status = Working ∧ (update s now).state.Status = Break) →
        (update s now).state.Pomodori = wrap64 (s.Pomodori + 1) ∧
        (inInt64 (s.Pomodori + 1) → (update s now).state.Pomodori = s.Pomodori + 1)) ∧
    (¬ (s.Status = Working ∧ (update s now).state.Status = Break) →
        (update s now).state.Pomodori = s.Pomodori) := by
  refine update_cases s now
    (fun o => ((s.Status = Working ∧ o.state.Status = Break) →
        o.state.Pomodori = wrap64 (s.Pomodori + 1) ∧
        (inInt64 (s.Pomodori + 1) → o.state.Pomodori = s.Pomodori + 1)) ∧
      (¬ (s.Status = Working ∧ o.state.Status = Break) → o.state.Pomodori = s.Pomodori))
    ?_ ?_ ?_ ?_ ?_ ?_ ?_ ?_
  · intro _
    exact ⟨fun h => absurd (h.1.symm.trans h.2) (by decide), fun _ => rfl⟩
  · intro _ _
    exact ⟨fun h => absurd (h.1.symm.trans h.2) (by decide), fun _ => rfl⟩
  · intro _ _ _ _
    exact ⟨fun h => absurd (h.1.symm.trans h.2) (by decide), fun _ => rfl⟩
  · intro _ _ hs _
    exact ⟨fun _ => ⟨rfl, fun hp => wrap64_eq hp⟩, fun h => absurd ⟨hs, rfl⟩ h⟩
  · intro _ _ hs _ _
    exact ⟨fun h => absurd h.1 hs, fun _ => rfl⟩
  · intro _ _ hs _ _
    exact ⟨fun h => absurd h.1 hs, fun _ => rfl⟩
  · intro _ _ hs _ _
    exact ⟨fun h => absurd h.1 hs, fun _ => rfl⟩
  · intro _ _ hs _ _
    exact ⟨fun h => absurd h.1 hs, fun _ => rfl⟩

/-- C5: for a session with `LongBreak == false`, `LongBreak` is true after an `update`
call exactly when the call made the Working-to-Break transition and the incremented
`Pomodori` (the `int` that `Pomodori++` leaves) equals `Rules.Pomodori.Rounds`; and once
`LongBreak` is true no sequence of `Start`, `update`, `Toogle` and `Terminate` calls
sets it back to false. -/
theorem update_isLongBreak (s : Session) (now : Time) :
    (s.LongBreak = false →
      ((update s now).state.LongBreak = true ↔
        (s.Status = Working ∧ (update s now).state.Status = Break ∧
          (update s now).state.Pomodori = wrap64 (s.Pomodori + 1) ∧
          (update s now).state.Pomodori = s.Rules.Pomodori.Rounds))) ∧
    (s.LongBreak = true → ∀ ops : List Op, (exec s ops).LongBreak = true) := by
  refine ⟨?_, fun h ops => exec_LongBreak ops s h⟩
  refine update_cases s now
    (fun o => s.LongBreak = false →
      (o.state.LongBreak = true ↔
        (s.Status = Working ∧ o.state.Status = Break ∧
          o.state.Pomodori = wrap64 (s.Pomodori + 1) ∧
          o.state.Pomodori = s.Rules.Pomodori.Rounds)))
    ?_ ?_ ?_ ?_ ?_ ?_ ?_ ?_
  all_goals intros
  all_goals simp_all [Outcome.state, Working, Break]

/-- C6 (as stated, refuted): a running session in Working with `Elapsed` the largest
`int64` stays in Working on the next tick, and `Elapsed` is afterwards negative: lower
than before. -/
theorem update_elapsed_counterexample :
    (update { NewSession with Running := true, Elapsed := 9223372036854775807 } 7).state.Status
      = ({ NewSession with Running := true, Elapsed := 9223372036854775807 } : Session).Status ∧
    (update { NewSession with Running := true, Elapsed := 9223372036854775807 } 7).state.Elapsed
      = -9223372035854775809 ∧
    ¬ (({ NewSession with Running := true, Elapsed := 9223372036854775807 } : Session).Elapsed
        ≤ (update { NewSession with Running := true,
                                    Elapsed := 9223372036854775807 } 7).state.Elapsed) := by
  decide

/-- C6 (amended): for every session and every `update` call, if the phase after differs
from the phase before then `Elapsed` is 0 afterwards; if the phase is unchanged then
`Elapsed` is unchanged when paused and the `int64` result of `Elapsed + 1s` when the
call ran (running, lock free); whenever `Elapsed + 1s` is a value of an `int64` that is
`Elapsed + 1s` exactly and `Elapsed` has not decreased. The same holds at every step
of every tick sequence. -/
theorem update_elapsed (s : Session) (now : Time) :
    ((update s now).state.Status ≠ s.Status → (update s now).state.Elapsed = 0) ∧
    ((update s now).state.Status = s.Status →
      (s.Running = true → s.Lock = RWMutex.free →
        (update s now).state.Elapsed = wrap64 (s.Elapsed + 1 * Second)) ∧
      (s.Running = false → (update s now).state.Elapsed = s.Elapsed) ∧
      (inInt64 (s.Elapsed + 1 * Second) →
        s.Elapsed ≤ (update s now).state.Elapsed ∧
        (s.Running = true → s.Lock = RWMutex.free →
          (update s now).state.Elapsed = s.Elapsed + 1 * Second))) ∧
    (∀ (ts : List Time) (t : Time),
      ((exec s ((ts ++ [t]).map Op.update)).Status ≠ (exec s (ts.map Op.update)).Status →
        (exec s ((ts ++ [t]).map Op.update)).Elapsed = 0) ∧
      ((exec s ((ts ++ [t]).map Op.update)).Status = (exec s (ts.map Op.update)).Status →
        inInt64 ((exec s (ts.map Op.update)).Elapsed + 1 * Second) →
        (exec s (ts.map Op.update)).Elapsed ≤ (exec s ((ts ++ [t]).map Op.update)).Elapsed)) := by
  have step : ∀ (s : Session) (now : Time),
      ((update s now).state.Status ≠ s.Status → (update s now).state.Elapsed = 0) ∧
      ((update s now).state.Status = s.Status →
        (s.Running = true → s.Lock = RWMutex.free →
          (update s now).state.Elapsed = wrap64 (s.Elapsed + 1 * Second)) ∧
        (s.Running = false → (update s now).state.Elapsed = s.Elapsed) ∧
        (inInt64 (s.Elapsed + 1 * Second) →
          s.Elapsed ≤ (update s now).state.Elapsed ∧
          (s.Running = true → s.Lock = RWMutex.free →
            (update s now).state.Elapsed = s.Elapsed + 1 * Second))) := by
    intro s now
    have grow : inInt64 (s.Elapsed + 1 * Second) →
        s.Elapsed ≤ wrap64 (s.Elapsed + Second) ∧
        wrap64 (s.Elapsed + Second) = s.Elapsed + 1 * Second := by
      intro h
      rw [one_mul] at h
      rw [wrap64_eq h, one_mul]
      refine ⟨?_, rfl⟩
      have : (0 : Int) ≤ Second := by decide
      exact le_add_of_nonneg_right this
    have same : ∀ x : Session, x.Elapsed = s.Elapsed →
        (s.Running = false ∨ s.Lock ≠ RWMutex.free) →
        (s.Running = true → s.Lock = RWMutex.free →
          x.Elapsed = wrap64 (s.Elapsed + 1 * Second)) ∧
        (s.Running = false → x.Elapsed = s.Elapsed) ∧
        (inInt64 (s.Elapsed + 1 * Second) →
          s.Elapsed ≤ x.Elapsed ∧
          (s.Running = true → s.Lock = RWMutex.free →
            x.Elapsed = s.Elapsed + 1 * Second)) := by
      intro x hx hno
      refine ⟨fun hr hl => ?_, fun _ => hx, fun _ => ⟨le_of_eq hx.symm, fun hr hl => ?_⟩⟩
      · rcases hno with h | h
        · rw [hr] at h; cases h
        · exact absurd hl h
      · rcases hno with h | h
        · rw [hr] at h; cases h
        · exact absurd hl h
    have ran : ∀ x : Session, x.Elapsed = wrap64 (s.Elapsed + Second) →
        s.Running = true →
        (s.Running = true → s.Lock = RWMutex.free →
          x.Elapsed = wrap64 (s.Elapsed + 1 * Second)) ∧
        (s.Running = false → x.Elapsed = s.Elapsed) ∧
        (inInt64 (s.Elapsed + 1 * Second) →
          s.Elapsed ≤ x.Elapsed ∧
          (s.Running = true → s.Lock = RWMutex.free →
            x.Elapsed = s.Elapsed + 1 * Second)) := by
      intro x hx hr
      refine ⟨fun _ _ => by rw [hx, one_mul], fun h => ?_, fun h => ?_⟩
      · rw [hr] at h; cases h
      · rw [hx]
        exact ⟨(grow h).1, fun _ _ => (grow h).2⟩
    refine update_cases s now
      (fun o => (o.state.Status ≠ s.Status → o.state.Elapsed = 0) ∧
        (o.state.Status = s.Status →
          (s.Running = true → s.Lock = RWMutex.free →
            o.state.Elapsed = wrap64 (s.Elapsed + 1 * Second)) ∧
          (s.Running = false → o.state.Elapsed = s.Elapsed) ∧
          (inInt64 (s.Elapsed + 1 * Second) →
            s.Elapsed ≤ o.state.Elapsed ∧
            (s.Running = true → s.Lock = RWMutex.free →
              o.state.Elapsed = s.Elapsed + 1 * Second))))
      ?_ ?_ ?_ ?_ ?_ ?_ ?_ ?_
    · intro hr
      exact ⟨fun h => absurd rfl h, fun _ => same s rfl (Or.inl hr)⟩
    · intro _ hl
      exact ⟨fun h => absurd rfl h, fun _ => same s rfl (Or.inr hl)⟩
    · intro hr _ _ _
      exact ⟨fun h => absurd rfl h, fun _ => ran _ rfl hr⟩
    · intro _ _ hs _
      refine ⟨fun _ => rfl, fun h => ?_⟩
      have h' : Break = s.Status := h
      rw [hs] at h'
      exact absurd h' (by decide)
    · intro hr _ _ _ _
      exact ⟨fun h => absurd rfl h, fun _ => ran _ rfl hr⟩
    · intro hr _ _ _ _
      exact ⟨fun h => absurd rfl h, fun _ => ran _ rfl hr⟩
    · intro hr _ _ _ _
      exact ⟨fun h => absurd rfl h, fun _ => ran _ rfl hr⟩
    · intro _ _ hs _ _
      refine ⟨fun _ => rfl, fun h => ?_⟩
      have h' : Working = s.Status := h
      exact absurd h'.symm hs
  refine ⟨(step s now).1, (step s now).2, ?_⟩
  intro ts t
  have h := step (exec s (ts.map Op.update)) t
  have e : exec s ((ts ++ [t]).map Op.update)
      = (update (exec s (ts.map Op.update)) t).state := by
    simp [exec, List.foldl_append, Op.apply]
  rw [e]
  exact ⟨h.1, fun hs hi => ((h.2 hs).2.2 hi).1⟩

/-- C7: `Terminate` at time `t`, called with the lock free, returns and leaves the
session with `Running == false`, `Started == false`, `Finished == true`,
`FinishedAt == t` and every other field unchanged; a second `Terminate` at time `t2`
gives the state of a single one but for `FinishedAt`, which is `t2`. -/
theorem Terminate_effect (s : Session) (t : Time) (h : s.Lock = RWMutex.free) :
    Terminate s t = .returned ()
      { s with Running := false, Started := false, Finished := true, FinishedAt := t } ∧
    ∀ t2 : Time,
      Terminate (Terminate s t).state t2
        = .returned () { (Terminate s t).state with FinishedAt := t2 } ∧
      Terminate (Terminate s t).state t2 = Terminate s t2 := by
  have h2 : (Terminate s t).state
      = { s with Running := false, Started := false, Finished := true, FinishedAt := t } := by
    rw [Terminate_free s t h]; rfl
  have hl : (Terminate s t).state.Lock = RWMutex.free := by rw [h2]; exact h
  refine ⟨Terminate_free s t h, fun t2 => ⟨?_, ?_⟩⟩
  · rw [Terminate_free _ t2 hl, h2]
  · rw [Terminate_free _ t2 hl, Terminate_free s t2 h, h2]

/-- A started, running session terminated at time 9, for C7. -/
theorem Terminate_effect_witness :
    Terminate { Start NewSession 1 with Running := true } 9 = .returned ()
      { Start NewSession 1 with Running := false, Started := false, Finished := true,
                                FinishedAt := 9 } :=
  (Terminate_effect { Start NewSession 1 with Running := true } 9 rfl).1

/-- C8 (as stated, refuted): after `Terminate` on a fresh started session `Finished` is
true and `Elapsed` is 0; one `Toogle` later an `update` call adds a second to
`Elapsed` and recomputes `Remaining`. -/
theorem update_after_finished_counterexample :
    (exec (Start NewSession 0) [.terminate 1]).Finished = true ∧
    (exec (Start NewSession 0) [.terminate 1]).Elapsed = 0 ∧
    (exec (Start NewSession 0) [.terminate 1]).Remaining = 0 ∧
    update (exec (exec (Start NewSession 0) [.terminate 1]) [.toggle]) 2 =
      .returned false
        { exec (Start NewSession 0) [.terminate 1] with
            Running := true, Elapsed := 1 * Second, Remaining := 4 * Second } := by
  decide

/-- C8 (amended): in every session with `Finished == true`, in particular every one
reachable from a fresh started session, every later `update` call that is made while
`Running` is false returns `false` and changes nothing, whatever `Toogle` calls happen
in between: `Elapsed`, `Remaining`, `Status`, `Pomodori`, `Breaks`, `FinishedAt` and
`Finished` are at the end what they were. -/
theorem finished_paused_frozen (s : Session) (later : List Op)
    (hfin : s.Finished = true) (hp : onlyPausedTicks s later = true) :
    (∀ pre t post, later = pre ++ Op.update t :: post →
      update (exec s pre) t = .returned false (exec s pre)) ∧
    (exec s later).Elapsed = s.Elapsed ∧ (exec s later).Remaining = s.Remaining ∧
    (exec s later).Status = s.Status ∧ (exec s later).Pomodori = s.Pomodori ∧
    (exec s later).Breaks = s.Breaks ∧ (exec s later).FinishedAt = s.FinishedAt ∧
    (exec s later).Finished = true := by
  obtain ⟨h1, h2⟩ := onlyPausedTicks_frozen later s hp
  refine ⟨h2, ?_, ?_, ?_, ?_, ?_, ?_, ?_⟩
  · exact (congrArg Session.Elapsed h1 :)
  · exact (congrArg Session.Remaining h1 :)
  · exact (congrArg Session.Status h1 :)
  · exact (congrArg Session.Pomodori h1 :)
  · exact (congrArg Session.Breaks h1 :)
  · exact (congrArg Session.FinishedAt h1 :)
  · exact (congrArg Session.Finished h1 :).trans hfin

/-- A terminated session, ticked, toggled twice and ticked again, for C8. -/
theorem finished_paused_frozen_witness :
    (∀ pre t post, [Op.update 2, Op.toggle, Op.toggle, Op.update 3] = pre ++ Op.update t :: post →
      update (exec (exec (Start NewSession 0) [.terminate 1]) pre) t
        = .returned false (exec (exec (Start NewSession 0) [.terminate 1]) pre)) ∧
    (exec (exec (Start NewSession 0) [.terminate 1])
        [Op.update 2, Op.toggle, Op.toggle, Op.update 3]).Elapsed = 0 :=
  ⟨(finished_paused_frozen (exec (Start NewSession 0) [.terminate 1])
      [Op.update 2, Op.toggle, Op.toggle, Op.update 3] (by decide) (by decide)).1,
   (finished_paused_frozen (exec (Start NewSession 0) [.terminate 1])
      [Op.update 2, Op.toggle, Op.toggle, Op.update 3] (by decide) (by decide)).2.1⟩

/-- C9 (as stated, refuted): `Start`, `Terminate`, `Start` on a session made by
`NewSession` leaves `Started` and `Finished` both true. -/
theorem started_and_finished_counterexample :
    (exec NewSession [.start 0, .terminate 1, .start 2]).Started = true ∧
    (exec NewSession [.start 0, .terminate 1, .start 2]).Finished = true := by
  decide

/-- C9 (amended): in every state reachable from a session made by `NewSession` through
`Start`, `update`, `Toogle` and `Terminate` calls in which `Start` is only called on a
session that is not finished, `Started` and `Finished` are never both true. -/
theorem started_finished_exclusive (ops : List Op)
    (h : startsOnUnfinished NewSession ops = true) :
    ¬ ((exec NewSession ops).Started = true ∧ (exec NewSession ops).Finished = true) := by
  have key : ∀ (ops : List Op) (s : Session),
      ¬ (s.Started = true ∧ s.Finished = true) → startsOnUnfinished s ops = true →
      ¬ ((exec s ops).Started = true ∧ (exec s ops).Finished = true) := by
    intro ops
    induction ops with
    | nil => intro s hs _; exact hs
    | cons op ops ih =>
      intro s hs hg
      rw [exec_cons]
      cases op with
      | start now =>
        simp only [startsOnUnfinished, Bool.and_eq_true, Bool.not_eq_true'] at hg
        exact ih _ (apply_flags s _ (fun _ _ => hg.1) hs) hg.2
      | update now =>
        simp only [startsOnUnfinished] at hg
        exact ih _ (apply_flags s _ (fun _ e => by cases e) hs) hg
      | toggle =>
        simp only [startsOnUnfinished] at hg
        exact ih _ (apply_flags s _ (fun _ e => by cases e) hs) hg
      | terminate now =>
        simp only [startsOnUnfinished] at hg
        exact ih _ (apply_flags s _ (fun _ e => by cases e) hs) hg
  exact key ops NewSession (by decide) h

/-- A session started, run, paused and terminated, for C9. -/
theorem started_finished_exclusive_witness :
    ¬ ((exec NewSession [.start 0, .toggle, .update 1, .toggle, .terminate 2]).Started = true ∧
       (exec NewSession [.start 0, .toggle, .update 1, .toggle, .terminate 2]).Finished = true) :=
  started_finished_exclusive [.start 0, .toggle, .update 1, .toggle, .terminate 2] (by decide)

/-- C10: `Toogle`, called with the lock free, returns and negates `Running`, leaving
every other field unchanged; applied twice it gives back the session it started from. -/
theorem Toogle_effect (s : Session) (h : s.Lock = RWMutex.free) :
    Toogle s = .returned () { s with Running := !s.Running } ∧
    Toogle (Toogle s).state = .returned () s := by
  have h2 : (Toogle s).state = { s with Running := !s.Running } := by
    rw [Toogle_free s h]; rfl
  have hl : (Toogle s).state.Lock = RWMutex.free := by rw [h2]; exact h
  refine ⟨Toogle_free s h, ?_⟩
  rw [Toogle_free _ hl, h2]
  simp

/-- A fresh session toggled once and twice, for C10. -/
theorem Toogle_effect_witness :
    Toogle NewSession = .returned () { NewSession with Running := true } ∧
    Toogle (Toogle NewSession).state = .returned () NewSession :=
  Toogle_effect NewSession rfl

/-- C11: `Start` at time `t` sets `StartedAt == t`, `Started == true` and
`Status == Working` and keeps every other field: `Running`, `Finished`, `Elapsed`,
`Remaining`, `Pomodori`, `Breaks`, `LongBreak`, `FinishedAt`, the rules, the lock and the
channel. On a fresh session `Running` stays false, and a second `Start` only re-stamps
`StartedAt` and forces the phase to Working. -/
theorem Start_effect (s : Session) (t : Time) :
    (Start s t).StartedAt = t ∧ (Start s t).Started = true ∧ (Start s t).Status = Working ∧
    (Start s t).Running = s.Running ∧ (Start s t).Finished = s.Finished ∧
    (Start s t).Elapsed = s.Elapsed ∧ (Start s t).Remaining = s.Remaining ∧
    (Start s t).Pomodori = s.Pomodori ∧ (Start s t).Breaks = s.Breaks ∧
    (Start s t).LongBreak = s.LongBreak ∧ (Start s t).FinishedAt = s.FinishedAt ∧
    (Start s t).Rules = s.Rules ∧ (Start s t).Lock = s.Lock ∧ (Start s t).Cancel = s.Cancel ∧
    (Start NewSession t).Running = false ∧
    (∀ (ops : List Op) (t2 : Time),
      Start (exec (Start s t) ops) t2
        = { exec (Start s t) ops with StartedAt := t2, Started := true, Status := Working }) ∧
    (∀ t2 : Time, Start (Start s t) t2 = { Start s t with StartedAt := t2 }) :=
  ⟨rfl, rfl, rfl, rfl, rfl, rfl, rfl, rfl, rfl, rfl, rfl, rfl, rfl, rfl, rfl,
    fun _ _ => rfl, fun _ => rfl⟩

/-- C12: in the loop of `Run`, a cancel event makes the process exit at once with the
session exactly as it was before the event: `Terminate` is not called, so `Finished`
and `Started` are what they were when `Run` was entered (false and true for a started
session). And whenever `Run` has exited, it did so on a cancel event or on a tick whose
`update` returned `true`. -/
theorem Run_cancel (s : Session) :
    (∀ (pre post : List Event) (s' : Session), Run s pre = .waiting s' →
      Run s (pre ++ Event.cancel :: post) = .exited s' ∧
      s'.Finished = s.Finished ∧ s'.Started = s.Started) ∧
    (∀ (t0 : Time) (pre post : List Event) (s' : Session),
      Run (Start NewSession t0) pre = .waiting s' →
      Run (Start NewSession t0) (pre ++ Event.cancel :: post) = .exited s' ∧
      s'.Finished = false ∧ s'.Started = true) ∧
    (∀ (es : List Event) (s' : Session), Run s es = .exited s' →
      ∃ pre post,
        (es = pre ++ Event.cancel :: post ∧ Run s pre = .waiting s') ∨
        (∃ t s1, es = pre ++ Event.tick t :: post ∧ Run s pre = .waiting s1 ∧
          update s1 t = .returned true s')) := by
  have cancel : ∀ (s : Session) (pre post : List Event) (s' : Session),
      Run s pre = .waiting s' →
      Run s (pre ++ Event.cancel :: post) = .exited s' ∧
      s'.Finished = s.Finished ∧ s'.Started = s.Started := by
    intro s pre post s' h
    have hf := loop_flags pre { s with Running := true }
    unfold Run at h
    rw [h] at hf
    refine ⟨?_, hf.2, hf.1⟩
    unfold Run
    rw [loop_append, h]
    rfl
  refine ⟨cancel s, ?_, ?_⟩
  · intro t0 pre post s' h
    exact cancel (Start NewSession t0) pre post s' h
  · intro es s' h
    exact loop_exited es _ s' h

/-- A started session cancelled after two ticks, for C12. -/
theorem Run_cancel_witness :
    Run (Start NewSession 0) ([Event.tick 1, Event.tick 2] ++ Event.cancel :: [Event.tick 3])
      = .exited { Start NewSession 0 with
          Running := true, Elapsed := 2 * Second, Remaining := 3 * Second } ∧
    ({ Start NewSession 0 with
          Running := true, Elapsed := 2 * Second, Remaining := 3 * Second } : Session).Finished
      = (Start NewSession 0).Finished ∧
    ({ Start NewSession 0 with
          Running := true, Elapsed := 2 * Second, Remaining := 3 * Second } : Session).Started
      = (Start NewSession 0).Started :=
  (Run_cancel (Start NewSession 0)).1 [Event.tick 1, Event.tick 2] [Event.tick 3] _ (by decide)

/-- C13 (what the code does): `update` never returns `true`. When on entry the session
is running, in Break, with `LongBreak` true and `Elapsed + 1s >= 4 x Breaks.Duration`
(both as `int64` results), the call (entered with the lock free) takes the lock, adds
the second, recomputes `Remaining` and then waits for ever inside `Terminate`: none of
the effects of `Terminate` is applied, `Finished`, `Started` and `Running` keep their
values and the lock stays held. In every other case, entered with the lock free,
`update` returns `false` and leaves `Finished` unchanged. -/
theorem update_completion_blocks (s : Session) (now : Time) :
    (∀ s', update s now ≠ .returned true s') ∧
    (s.Running = true → s.Lock = RWMutex.free → s.Status = Break → s.LongBreak = true →
      wrap64 (s.Rules.Breaks.Duration * 4) ≤ wrap64 (s.Elapsed + 1 * Second) →
      update s now = .blocked
        { s with Elapsed := wrap64 (s.Elapsed + 1 * Second),
                 Remaining := wrap64 (wrap64 (s.Rules.Pomodori.Duration * 4)
                   - wrap64 (s.Elapsed + 1 * Second)),
                 Lock := { writer := true, readers := 0 } }) ∧
    (s.Running = true → s.Lock = RWMutex.free → s.Status = Break → s.LongBreak = true →
      inInt64 (s.Elapsed + 1 * Second) → inInt64 (s.Rules.Breaks.Duration * 4) →
      s.Rules.Breaks.Duration * 4 ≤ s.Elapsed + 1 * Second →
      update s now = .blocked
        { s with Elapsed := s.Elapsed + 1 * Second,
                 Remaining := wrap64 (wrap64 (s.Rules.Pomodori.Duration * 4)
                   - (s.Elapsed + 1 * Second)),
                 Lock := { writer := true, readers := 0 } }) ∧
    (s.Lock = RWMutex.free →
      ¬ (s.Running = true ∧ s.Status ≠ Working ∧ s.LongBreak = true ∧
          wrap64 (s.Rules.Breaks.Duration * 4) ≤ wrap64 (s.Elapsed + 1 * Second)) →
      ∃ s', update s now = .returned false s' ∧ s'.Finished = s.Finished) := by
  have hbw : Break ≠ Working := by decide
  refine ⟨update_not_done s now, ?_, ?_, ?_⟩
  · intro hr hl hs hb he
    rw [one_mul] at he ⊢
    exact update_long_done s now hr hl (by rw [hs]; exact hbw) hb he
  · intro hr hl hs hb hx h4 he
    rw [one_mul] at hx he ⊢
    exact update_long_done_exact s now hr hl (by rw [hs]; exact hbw) hb hx h4 he
  · intro hl hn
    rw [one_mul] at hn
    refine update_cases s now
      (fun o => ∃ s', o = .returned false s' ∧ s'.Finished = s.Finished)
      ?_ ?_ ?_ ?_ ?_ ?_ ?_ ?_
    · intro _; exact ⟨s, rfl, rfl⟩
    · intro _ h; exact absurd hl h
    · intros; exact ⟨_, rfl, rfl⟩
    · intros; exact ⟨_, rfl, rfl⟩
    · intros; exact ⟨_, rfl, rfl⟩
    · intro hr _ hs hb he
      exact absurd ⟨hr, hs, hb, he⟩ hn
    · intros; exact ⟨_, rfl, rfl⟩
    · intros; exact ⟨_, rfl, rfl⟩

/-- The last second of the long break of the test rules, for C13. -/
theorem update_completion_blocks_witness :
    update { NewSession with Running := true, Started := true, Status := Break,
                             LongBreak := true, Pomodori := 4, Breaks := 3,
                             Elapsed := 19 * Second, Remaining := 1 * Second } 7 =
      .blocked { NewSession with Running := true, Started := true, Status := Break,
                                 LongBreak := true, Pomodori := 4, Breaks := 3,
                                 Elapsed := 19 * Second + 1 * Second,
                                 Remaining := wrap64 (wrap64 (5 * Second * 4)
                                   - (19 * Second + 1 * Second)),
                                 Lock := { writer := true, readers := 0 } } :=
  (update_completion_blocks
    { NewSession with Running := true, Started := true, Status := Break,
                      LongBreak := true, Pomodori := 4, Breaks := 3,
                      Elapsed := 19 * Second, Remaining := 1 * Second } 7).2.2.1
    rfl rfl rfl rfl (by decide) (by decide) (by decide)

/-- C14 (as stated, refuted): a running session in an ordinary break with `Elapsed` the
largest `int64` has `Elapsed + 1s >= Breaks.Duration`, yet the tick does not complete
the break: `Elapsed` wraps to a negative value, `Breaks` and the phase are unchanged. -/
theorem update_short_break_counterexample :
    ({ NewSession with Running := true, Status := Break, Pomodori := 1,
                       Elapsed := 9223372036854775807 } : Session).Rules.Breaks.Duration
      ≤ ({ NewSession with Running := true, Status := Break, Pomodori := 1,
                           Elapsed := 9223372036854775807 } : Session).Elapsed + 1 * Second ∧
    update { NewSession with Running := true, Status := Break, Pomodori := 1,
                             Elapsed := 9223372036854775807 } 7 =
      .returned false
        { NewSession with Running := true, Status := Break, Pomodori := 1,
                          Elapsed := -9223372035854775809 } := by
  decide

/-- C14 (amended): for a running session in Break with `LongBreak == false` (lock free),
with `e` the `int64` result of `Elapsed + 1s`: `update` with `e >= Breaks.Duration`
increments `Breaks` by 1 (as an `int`), sets `Status = Working`, `Elapsed = 0` and
`Remaining = Breaks.Duration`, and leaves `Pomodori`, `LongBreak` and every other field
unchanged; with `e < Breaks.Duration` it only sets `Elapsed` to `e`. Whenever
`Elapsed + 1s`, `Breaks + 1` and `Breaks.Duration` are values of an `int64`, `e` is
`Elapsed + 1s` and the new `Breaks` is `Breaks + 1` exactly. `Breaks` changes in no
other case of `update`: a call that changes it is such a short-break completion. -/
theorem update_short_break (s : Session) (now : Time) :
    (s.Running = true → s.Lock = RWMutex.free → s.Status = Break → s.LongBreak = false →
      (s.Rules.Breaks.Duration ≤ wrap64 (s.Elapsed + 1 * Second) →
        update s now = .returned false
          { s with Breaks := wrap64 (s.Breaks + 1), Status := Working, Elapsed := 0,
                   Remaining := wrap64 (s.Rules.Breaks.Duration - 0) }) ∧
      (wrap64 (s.Elapsed + 1 * Second) < s.Rules.Breaks.Duration →
        update s now = .returned false { s with Elapsed := wrap64 (s.Elapsed + 1 * Second) }) ∧
      (inInt64 (s.Elapsed + 1 * Second) → inInt64 (s.Breaks + 1) →
        inInt64 s.Rules.Breaks.Duration →
        (s.Rules.Breaks.Duration ≤ s.Elapsed + 1 * Second →
          update s now = .returned false
            { s with Breaks := s.Breaks + 1, Status := Working, Elapsed := 0,
                     Remaining := s.Rules.Breaks.Duration }) ∧
        (s.Elapsed + 1 * Second < s.Rules.Breaks.Duration →
          update s now = .returned false { s with Elapsed := s.Elapsed + 1 * Second }))) ∧
    ((update s now).state.Breaks ≠ s.Breaks →
      s.Running = true ∧ s.Lock = RWMutex.free ∧ s.Status ≠ Working ∧ s.LongBreak = false ∧
      s.Rules.Breaks.Duration ≤ wrap64 (s.Elapsed + 1 * Second) ∧
      (s.Status = Working ∨ s.Status = Break → s.Status = Break) ∧
      (update s now).state.Breaks = wrap64 (s.Breaks + 1)) := by
  constructor
  · intro hr hl hs hb
    have hs' : s.Status ≠ Working := by rw [hs]; decide
    refine ⟨?_, ?_, ?_⟩
    · intro he
      rw [one_mul] at he
      rw [update_short_flip s now hr hl hs' hb he]
    · intro he
      rw [one_mul] at he ⊢
      rw [update_short_stay s now hr hl hs' hb he]
    · intro hx hy hd
      rw [one_mul] at hx ⊢
      constructor
      · intro he
        rw [update_short_flip_exact s now hr hl hs' hb hx hy he, wrap64_zero_sub _ hd]
      · intro he
        rw [update_short_stay_exact s now hr hl hs' hb hx he]
  · refine update_cases s now
      (fun o => o.state.Breaks ≠ s.Breaks →
        s.Running = true ∧ s.Lock = RWMutex.free ∧ s.Status ≠ Working ∧ s.LongBreak = false ∧
        s.Rules.Breaks.Duration ≤ wrap64 (s.Elapsed + 1 * Second) ∧
        (s.Status = Working ∨ s.Status = Break → s.Status = Break) ∧
        o.state.Breaks = wrap64 (s.Breaks + 1))
      ?_ ?_ ?_ ?_ ?_ ?_ ?_ ?_
    · intro _ h; exact absurd rfl h
    · intro _ _ h; exact absurd rfl h
    · intro _ _ _ _ h; exact absurd rfl h
    · intro _ _ _ _ h; exact absurd rfl h
    · intro _ _ _ _ _ h; exact absurd rfl h
    · intro _ _ _ _ _ h; exact absurd rfl h
    · intro _ _ _ _ _ h; exact absurd rfl h
    · intro hr hl hs hb he _
      refine ⟨hr, hl, hs, hb, by rw [one_mul]; exact he, ?_, rfl⟩
      intro h
      rcases h with h | h
      · exact absurd h hs
      · exact h

/-- The last and an earlier second of a short break of the test rules, for C14. -/
theorem update_short_break_witness :
    update { NewSession with Running := true, Status := Break, Pomodori := 1,
                             Elapsed := 4 * Second } 7 =
      .returned false
        { NewSession with Running := true, Status := Working, Pomodori := 1,
                          Breaks := 0 + 1, Elapsed := 0, Remaining := 5 * Second } ∧
    update { NewSession with Running := true, Status := Break, Pomodori := 1,
                             Elapsed := 2 * Second } 7 =
      .returned false
        { NewSession with Running := true, Status := Break, Pomodori := 1,
                          Elapsed := 2 * Second + 1 * Second } :=
  ⟨(((update_short_break
      { NewSession with Running := true, Status := Break, Pomodori := 1,
                        Elapsed := 4 * Second } 7).1 rfl rfl rfl rfl).2.2
      (by decide) (by decide) (by decide)).1 (by decide),
   (((update_short_break
      { NewSession with Running := true, Status := Break, Pomodori := 1,
                        Elapsed := 2 * Second } 7).1 rfl rfl rfl rfl).2.2
      (by decide) (by decide) (by decide)).2 (by decide)⟩

/-- C15 (what the code does): `Remaining` is not the duration of the current phase
minus the current `Elapsed` after every running tick. A tick that stays in an ordinary
break does not touch `Remaining`; the tick that ends the work period leaves the
remainder of the work period (with the session in Break at `Elapsed == 0`); the tick
that ends a short break leaves `Breaks.Duration` (with the session in Working). With
the test rules, after 6 ticks the session is in Break with `Elapsed == 1s` and
`Remaining == 0`, not `5s - 1s`. The relation does hold (as `int64` results) after a
tick that starts and stays in Working. -/
theorem remaining_not_recomputed :
    (∀ (s : Session) (now : Time), s.Running = true → s.Lock = RWMutex.free →
      s.Status = Break → s.LongBreak = false →
      wrap64 (s.Elapsed + 1 * Second) < s.Rules.Breaks.Duration →
      (update s now).state.Status = Break ∧
      (update s now).state.Elapsed = wrap64 (s.Elapsed + 1 * Second) ∧
      (update s now).state.Remaining = s.Remaining) ∧
    (∀ (s : Session) (now : Time), s.Running = true → s.Lock = RWMutex.free →
      s.Status = Working → s.Rules.Pomodori.Duration ≤ wrap64 (s.Elapsed + 1 * Second) →
      (update s now).state.Status = Break ∧ (update s now).state.Elapsed = 0 ∧
      (update s now).state.Remaining
        = wrap64 (s.Rules.Pomodori.Duration - wrap64 (s.Elapsed + 1 * Second))) ∧
    (∀ (s : Session) (now : Time), s.Running = true → s.Lock = RWMutex.free →
      s.Status = Break → s.LongBreak = false →
      s.Rules.Breaks.Duration ≤ wrap64 (s.Elapsed + 1 * Second) →
      (update s now).state.Status = Working ∧ (update s now).state.Elapsed = 0 ∧
      (update s now).state.Remaining = wrap64 (s.Rules.Breaks.Duration - 0)) ∧
    (∀ (s : Session) (now : Time), s.Running = true → s.Lock = RWMutex.free →
      s.Status = Working → wrap64 (s.Elapsed + 1 * Second) < s.Rules.Pomodori.Duration →
      (update s now).state.Status = Working ∧
      (update s now).state.Remaining
        = wrap64 (s.Rules.Pomodori.Duration - (update s now).state.Elapsed)) ∧
    (∃ s, Run (Start NewSession 0) ([1, 2, 3, 4, 5, 6].map Event.tick) = .waiting s ∧
      s.Running = true ∧ s.Status = Break ∧ s.LongBreak = false ∧
      s.Elapsed = 1 * Second ∧ s.Remaining = 0 ∧
      s.Rules.Breaks.Duration - s.Elapsed = 4 * Second ∧
      s.Remaining ≠ s.Rules.Breaks.Duration - s.Elapsed) := by
  refine ⟨?_, ?_, ?_, ?_, ?_⟩
  · intro s now hr hl hs hb he
    have hs' : s.Status ≠ Working := by rw [hs]; decide
    rw [one_mul] at he ⊢
    rw [update_short_stay s now hr hl hs' hb he]
    exact ⟨hs, rfl, rfl⟩
  · intro s now hr hl hs he
    rw [one_mul] at he ⊢
    rw [update_work_flip s now hr hl hs he]
    exact ⟨rfl, rfl, rfl⟩
  · intro s now hr hl hs hb he
    have hs' : s.Status ≠ Working := by rw [hs]; decide
    rw [one_mul] at he
    rw [update_short_flip s now hr hl hs' hb he]
    exact ⟨rfl, rfl, rfl⟩
  · intro s now hr hl hs he
    rw [one_mul] at he
    rw [update_work_stay s now hr hl hs he]
    exact ⟨hs, rfl⟩
  · exact ⟨_, rfl, by decide⟩

/-- The second tick of a short break of the test rules, for C15. -/
theorem remaining_not_recomputed_witness :
    (update { NewSession with Running := true, Status := Break, Pomodori := 1,
                              Elapsed := 1 * Second } 7).state.Status = Break ∧
    (update { NewSession with Running := true, Status := Break, Pomodori := 1,
                              Elapsed := 1 * Second } 7).state.Elapsed
      = wrap64 (1 * Second + 1 * Second) ∧
    (update { NewSession with Running := true, Status := Break, Pomodori := 1,
                              Elapsed := 1 * Second } 7).state.Remaining = 0 :=
  remaining_not_recomputed.1
    { NewSession with Running := true, Status := Break, Pomodori := 1,
                      Elapsed := 1 * Second } 7 rfl rfl rfl rfl (by decide)

/-- C16 (as stated, refuted): with a work duration of `2^62` nanoseconds, a running
session at the start of its long break has `Remaining == -1s` after the tick, not
`4 x Pomodori.Duration - (Elapsed + 1s)`: the product `4 x Pomodori.Duration` is `2^64`,
which an `int64` holds as 0. -/
theorem update_remaining_counterexample :
    (update { NewSession with
        Rules := { Pomodori := { Rounds := 1, Duration := 4611686018427387904 },
                   Breaks := { Rounds := 1, Duration := 5 * Second } },
        Running := true, Status := Break, LongBreak := true, Pomodori := 1 } 7).state.Remaining
      = -1000000000 ∧
    4 * (4611686018427387904 : Int) - (0 + 1 * Second) = 18446744072709551616 ∧
    (update { NewSession with
        Rules := { Pomodori := { Rounds := 1, Duration := 4611686018427387904 },
                   Breaks := { Rounds := 1, Duration := 5 * Second } },
        Running := true, Status := Break, LongBreak := true, Pomodori := 1 } 7).state.Remaining
      ≠ 4 * ({ NewSession with
          Rules := { Pomodori := { Rounds := 1, Duration := 4611686018427387904 },
                     Breaks := { Rounds := 1, Duration := 5 * Second } },
          Running := true, Status := Break, LongBreak := true,
          Pomodori := 1 } : Session).Rules.Pomodori.Duration
        - (({ NewSession with
          Rules := { Pomodori := { Rounds := 1, Duration := 4611686018427387904 },
                     Breaks := { Rounds := 1, Duration := 5 * Second } },
          Running := true, Status := Break, LongBreak := true,
          Pomodori := 1 } : Session).Elapsed + 1 * Second) := by
  decide

/-- C16 (amended): on a running tick (lock free), with `e` the `int64` result of
`Elapsed + 1s`: when the phase on entry is Working, `Remaining` afterwards is the
`int64` result of `Pomodori.Duration - e`, also on the tick that flips to Break and
resets `Elapsed`; when the phase on entry is Break with `LongBreak` true, `Remaining`
afterwards is the `int64` result of `4 x Pomodori.Duration - e`, based on the work
duration, while the completion test compares `e` with the `int64` result of
`4 x Breaks.Duration`. Whenever `Elapsed + 1s`, the product and the difference are
values of an `int64`, `Remaining` is `Pomodori.Duration - (Elapsed + 1s)`, respectively
`4 x Pomodori.Duration - (Elapsed + 1s)`, exactly. -/
theorem update_remaining (s : Session) (now : Time)
    (hr : s.Running = true) (hl : s.Lock = RWMutex.free) :
    (s.Status = Working →
      (update s now).state.Remaining
        = wrap64 (s.Rules.Pomodori.Duration - wrap64 (s.Elapsed + 1 * Second)) ∧
      (inInt64 (s.Elapsed + 1 * Second) →
        inInt64 (s.Rules.Pomodori.Duration - (s.Elapsed + 1 * Second)) →
        (update s now).state.Remaining
          = s.Rules.Pomodori.Duration - (s.Elapsed + 1 * Second)) ∧
      (s.Rules.Pomodori.Duration ≤ wrap64 (s.Elapsed + 1 * Second) →
        (update s now).state.Status = Break ∧ (update s now).state.Elapsed = 0)) ∧
    (s.Status = Break → s.LongBreak = true →
      (update s now).state.Remaining
        = wrap64 (wrap64 (s.Rules.Pomodori.Duration * 4) - wrap64 (s.Elapsed + 1 * Second)) ∧
      (inInt64 (s.Elapsed + 1 * Second) → inInt64 (s.Rules.Pomodori.Duration * 4) →
        inInt64 (4 * s.Rules.Pomodori.Duration - (s.Elapsed + 1 * Second)) →
        (update s now).state.Remaining
          = 4 * s.Rules.Pomodori.Duration - (s.Elapsed + 1 * Second)) ∧
      ((∃ s', update s now = .returned false s') ↔
        wrap64 (s.Elapsed + 1 * Second) < wrap64 (s.Rules.Breaks.Duration * 4))) := by
  rw [one_mul]
  constructor
  · intro hs
    have hrem : (update s now).state.Remaining
        = wrap64 (s.Rules.Pomodori.Duration - wrap64 (s.Elapsed + Second)) := by
      rcases lt_or_le (wrap64 (s.Elapsed + Second)) s.Rules.Pomodori.Duration with he | he
      · rw [update_work_stay s now hr hl hs he]; rfl
      · rw [update_work_flip s now hr hl hs he]; rfl
    refine ⟨hrem, ?_, ?_⟩
    · intro hx hd
      rw [hrem, wrap64_eq hx, wrap64_eq hd]
    · intro he
      rw [update_work_flip s now hr hl hs he]
      exact ⟨rfl, rfl⟩
  · intro hs hb
    have hs' : s.Status ≠ Working := by rw [hs]; decide
    have hrem : (update s now).state.Remaining
        = wrap64 (wrap64 (s.Rules.Pomodori.Duration * 4) - wrap64 (s.Elapsed + Second)) := by
      rcases lt_or_le (wrap64 (s.Elapsed + Second)) (wrap64 (s.Rules.Breaks.Duration * 4))
        with he | he
      · rw [update_long_stay s now hr hl hs' hb he]; rfl
      · rw [update_long_done s now hr hl hs' hb he]; rfl
    refine ⟨hrem, ?_, ?_⟩
    · intro hx h4 hd
      rw [hrem, wrap64_eq hx, wrap64_eq h4, mul_comm s.Rules.Pomodori.Duration 4,
        wrap64_eq hd]
    · rcases lt_or_le (wrap64 (s.Elapsed + Second)) (wrap64 (s.Rules.Breaks.Duration * 4))
        with he | he
      · exact ⟨fun _ => he, fun _ => ⟨_, update_long_stay s now hr hl hs' hb he⟩⟩
      · constructor
        · rintro ⟨s', h⟩
          rw [update_long_done s now hr hl hs' hb he] at h
          cases h
        · intro h
          exact absurd h (not_lt.mpr he)

/-- A long-break tick with a 3-second work rule and a 1-second break rule, for C16. -/
theorem update_remaining_witness :
    (update { NewSession with
        Rules := { Pomodori := { Rounds := 1, Duration := 3 * Second },
                   Breaks := { Rounds := 1, Duration := 1 * Second } },
        Running := true, Status := Break, LongBreak := true, Pomodori := 1,
        Elapsed := 1 * Second } 7).state.Remaining
      = 4 * (3 * Second) - (1 * Second + 1 * Second) :=
  ((update_remaining
    { NewSession with
        Rules := { Pomodori := { Rounds := 1, Duration := 3 * Second },
                   Breaks := { Rounds := 1, Duration := 1 * Second } },
        Running := true, Status := Break, LongBreak := true, Pomodori := 1,
        Elapsed := 1 * Second } 7 rfl rfl).2 rfl rfl).2.1 (by decide) (by decide) (by decide)

/-- C17 (what the code does): from a fresh started session (break duration a whole
number `b >= 1` of seconds, as in the test rules), through `update`, `Toogle` and
`Terminate` calls, `Status == Break`, `LongBreak == true`, `Finished == false` and
`Elapsed > 4 x Breaks.Duration` never hold together, and `Elapsed < 4 x Breaks.Duration`
holds in the unfinished long break as long as a reader can lock the session. But the
terminal transition is missed: the tick that brings `Elapsed` to `4 x Breaks.Duration`
waits for ever inside `Terminate`, and the session of the test rules is after 55 ticks,
and after whatever calls follow, in Break with `LongBreak == true`,
`Finished == false` and `Elapsed == 4 x Breaks.Duration`, not below it. -/
theorem terminal_transition_missed :
    (∀ (r : Rules) (b : Nat) (t0 : Time) (ops : List Op),
      1 ≤ b → r.Breaks.Duration = (b : Int) * Second → inInt64 (r.Breaks.Duration * 4) →
      noStart ops = true →
      ¬ ((exec (Start { NewSession with Rules := r } t0) ops).Status = Break ∧
         (exec (Start { NewSession with Rules := r } t0) ops).LongBreak = true ∧
         (exec (Start { NewSession with Rules := r } t0) ops).Finished = false ∧
         (exec (Start { NewSession with Rules := r } t0) ops).Elapsed
            > 4 * (exec (Start { NewSession with Rules := r } t0) ops).Rules.Breaks.Duration) ∧
      ((exec (Start { NewSession with Rules := r } t0) ops).Lock.RLock ≠ none →
        (exec (Start { NewSession with Rules := r } t0) ops).Status = Break →
        (exec (Start { NewSession with Rules := r } t0) ops).LongBreak = true →
        (exec (Start { NewSession with Rules := r } t0) ops).Finished = false →
        (exec (Start { NewSession with Rules := r } t0) ops).Elapsed
          < 4 * (exec (Start { NewSession with Rules := r } t0) ops).Rules.Breaks.Duration)) ∧
    (∀ (t0 : Time) (ts : List Time) (more : List Op), 55 ≤ ts.length → noStart more = true →
      (exec (Start NewSession t0) (.toggle :: ts.map Op.update ++ more)).Status = Break ∧
      (exec (Start NewSession t0) (.toggle :: ts.map Op.update ++ more)).LongBreak = true ∧
      (exec (Start NewSession t0) (.toggle :: ts.map Op.update ++ more)).Finished = false ∧
      (exec (Start NewSession t0) (.toggle :: ts.map Op.update ++ more)).Elapsed
        = 4 * (exec (Start NewSession t0)
            (.toggle :: ts.map Op.update ++ more)).Rules.Breaks.Duration ∧
      ¬ ((exec (Start NewSession t0) (.toggle :: ts.map Op.update ++ more)).Elapsed
        < 4 * (exec (Start NewSession t0)
            (.toggle :: ts.map Op.update ++ more)).Rules.Breaks.Duration) ∧
      (exec (Start NewSession t0) (.toggle :: ts.map Op.update ++ more)).Lock.RLock = none) := by
  constructor
  · intro r b t0 ops hb hB h4 hops
    rw [hB] at h4
    have h0 : LongBreakOK b (Start { NewSession with Rules := r } t0) :=
      fun hn => absurd rfl hn
    have hlong :=
      exec_LongBreakOK b hb ops (Start { NewSession with Rules := r } t0) hB h4 h0 hops
    have hR : (exec (Start { NewSession with Rules := r } t0) ops).Rules.Breaks.Duration
        = (b : Int) * Second := by
      rw [exec_Rules]; exact hB
    rw [hR]
    have hbrk : Break ≠ Working := by decide
    constructor
    · rintro ⟨hs, hl, -, hgt⟩
      obtain ⟨k, hk, hle, -⟩ := hlong (by rw [hs]; exact hbrk) hl
      rw [hk] at hgt
      have h1 : (4 : Int) * ((b : Int) * Second) < (k : Int) * Second := hgt
      unfold Second at h1
      omega
    · intro hrl hs hl _
      obtain ⟨k, hk, -, hlt⟩ := hlong (by rw [hs]; exact hbrk) hl
      have hw : (exec (Start { NewSession with Rules := r } t0) ops).Lock.writer = false := by
        by_contra hc
        apply hrl
        simp only [RWMutex.RLock]
        rw [if_neg hc]
      have hlt' := hlt hw
      rw [hk]
      show (k : Int) * Second < (4 : Int) * ((b : Int) * Second)
      unfold Second
      omega
  · intro t0 ts more hlen hmore
    have h0 := AtTick.init NewTestRules 4 5 5 t0 (by decide) (by decide)
    obtain ⟨s, h1, hfin, -, hrun, -, -, hst, hw, hlb, hel, hrl⟩ :=
      AtTick.loop_blocked (r := NewTestRules) (R := 4) (w := 5) (b := 5)
        (by decide) (by decide) rfl (by simp [NewTestRules]) (by simp [NewTestRules])
        (by decide) (by decide) (by decide) ts 0 _ h0 (by simpa [lastTick] using hlen)
    have hlock : s.Lock ≠ RWMutex.free := by
      intro h
      rw [h] at hw
      cases hw
    have e1 : exec (Start NewSession t0) (.toggle :: ts.map Op.update) = s := by
      have hx := loop_state_exec ts { Start NewSession t0 with Running := true }
      have h1' : Run.loop { Start NewSession t0 with Running := true } (ts.map Event.tick)
          = .blocked s := h1
      rw [h1'] at hx
      rw [exec_cons]
      exact hx.symm
    have e2 : exec (Start NewSession t0) (.toggle :: ts.map Op.update ++ more) = s := by
      rw [exec_append, e1]
      exact exec_stuck more s hlock hrun hmore
    rw [e2, hrl, hel]
    refine ⟨hst, hlb, hfin, by decide, by decide, ?_⟩
    simp [RWMutex.RLock, hw]

/-- The test rules after 55 ticks, then a toggle and a terminate call, for C17. -/
theorem terminal_transition_missed_witness :
    (exec (Start NewSession 0)
        (.toggle :: (List.replicate 55 (1 : Time)).map Op.update
          ++ [.toggle, .terminate 2])).Status = Break ∧
    (exec (Start NewSession 0)
        (.toggle :: (List.replicate 55 (1 : Time)).map Op.update
          ++ [.toggle, .terminate 2])).LongBreak = true ∧
    (exec (Start NewSession 0)
        (.toggle :: (List.replicate 55 (1 : Time)).map Op.update
          ++ [.toggle, .terminate 2])).Finished = false ∧
    (exec (Start NewSession 0)
        (.toggle :: (List.replicate 55 (1 : Time)).map Op.update
          ++ [.toggle, .terminate 2])).Elapsed
      = 4 * (exec (Start NewSession 0)
          (.toggle :: (List.replicate 55 (1 : Time)).map Op.update
            ++ [.toggle, .terminate 2])).Rules.Breaks.Duration ∧
    ¬ ((exec (Start NewSession 0)
        (.toggle :: (List.replicate 55 (1 : Time)).map Op.update
          ++ [.toggle, .terminate 2])).Elapsed
      < 4 * (exec (Start NewSession 0)
          (.toggle :: (List.replicate 55 (1 : Time)).map Op.update
            ++ [.toggle, .terminate 2])).Rules.Breaks.Duration) ∧
    (exec (Start NewSession 0)
        (.toggle :: (List.replicate 55 (1 : Time)).map Op.update
          ++ [.toggle, .terminate 2])).Lock.RLock = none :=
  terminal_transition_missed.2 0 (List.replicate 55 1) [.toggle, .terminate 2]
    (by simp) (by decide)

/-- C18 (what the code does): `Toogle` and `Terminate`, entered with the lock free,
return with the lock free. `update`, entered with the lock free, returns with the lock
free in every case but one: on the long-break completion path it calls `Terminate`
while it holds the lock, the nested `Lock()` never succeeds, and the call neither
returns nor releases the lock. -/
theorem lock_discipline (s : Session) (now : Time) (hl : s.Lock = RWMutex.free) :
    (∃ s', Toogle s = .returned () s' ∧ s'.Lock = RWMutex.free) ∧
    (∃ s', Terminate s now = .returned () s' ∧ s'.Lock = RWMutex.free) ∧
    (¬ (s.Running = true ∧ s.Status ≠ Working ∧ s.LongBreak = true ∧
          wrap64 (s.Rules.Breaks.Duration * 4) ≤ wrap64 (s.Elapsed + 1 * Second)) →
      ∃ s', update s now = .returned false s' ∧ s'.Lock = RWMutex.free) ∧
    ((s.Running = true ∧ s.Status ≠ Working ∧ s.LongBreak = true ∧
          wrap64 (s.Rules.Breaks.Duration * 4) ≤ wrap64 (s.Elapsed + 1 * Second)) →
      ∃ s', update s now = .blocked s' ∧ s'.Lock = { writer := true, readers := 0 } ∧
        Terminate s' now = .blocked s' ∧ s'.Finished = s.Finished) := by
  rw [one_mul]
  refine ⟨⟨_, Toogle_free s hl, hl⟩, ⟨_, Terminate_free s now hl, hl⟩, ?_, ?_⟩
  · intro hn
    refine update_cases s now
      (fun o => ∃ s', o = .returned false s' ∧ s'.Lock = RWMutex.free)
      ?_ ?_ ?_ ?_ ?_ ?_ ?_ ?_
    · intro _; exact ⟨s, rfl, hl⟩
    · intro _ h; exact absurd hl h
    · intros; exact ⟨_, rfl, hl⟩
    · intros; exact ⟨_, rfl, hl⟩
    · intros; exact ⟨_, rfl, hl⟩
    · intro hr _ hs hb he
      exact absurd ⟨hr, hs, hb, he⟩ hn
    · intros; exact ⟨_, rfl, hl⟩
    · intros; exact ⟨_, rfl, hl⟩
  · rintro ⟨hr, hs, hb, he⟩
    refine ⟨_, update_long_done s now hr hl hs hb he, rfl, ?_, rfl⟩
    exact Terminate_held _ now (by simp [RWMutex.free])

/-- The session of the test rules one second before the end of its long break, for
C18. -/
theorem lock_discipline_witness :
    ∃ s', update { NewSession with Running := true, Started := true, Status := Break,
                                   LongBreak := true, Pomodori := 4, Breaks := 3,
                                   Elapsed := 19 * Second, Remaining := 1 * Second } 7
        = .blocked s' ∧ s'.Lock = { writer := true, readers := 0 } ∧
      Terminate s' 7 = .blocked s' ∧ s'.Finished = false :=
  (lock_discipline
    { NewSession with Running := true, Started := true, Status := Break,
                      LongBreak := true, Pomodori := 4, Breaks := 3,
                      Elapsed := 19 * Second, Remaining := 1 * Second } 7 rfl).2.2.2
    ⟨rfl, by decide, rfl, by decide⟩

/-- C19: for rules with `Pomodori.Rounds >= 1` (an `int`), in every state reached from a fresh
session by one `Start` followed by `update`, `Toogle` and `Terminate` calls:
`Pomodori <= Rounds`; in Working, `Breaks == Pomodori`, `LongBreak` is false and
`Pomodori < Rounds`; in Break, `Pomodori == Breaks + 1`; the phase is one of the two;
`LongBreak` is true exactly when `Pomodori == Rounds`; and once `LongBreak` is true the
session stays in Break with `LongBreak` true whatever calls follow. -/
theorem counter_relation (r : Rules) (t0 : Time) (ops : List Op)
    (hR : 1 ≤ r.Pomodori.Rounds) (hRR : inInt64 r.Pomodori.Rounds)
    (hops : noStart ops = true) :
    (exec (Start { NewSession with Rules := r } t0) ops).Pomodori ≤ r.Pomodori.Rounds ∧
    ((exec (Start { NewSession with Rules := r } t0) ops).Status = Working →
      (exec (Start { NewSession with Rules := r } t0) ops).Breaks
        = (exec (Start { NewSession with Rules := r } t0) ops).Pomodori ∧
      (exec (Start { NewSession with Rules := r } t0) ops).LongBreak = false ∧
      (exec (Start { NewSession with Rules := r } t0) ops).Pomodori < r.Pomodori.Rounds) ∧
    ((exec (Start { NewSession with Rules := r } t0) ops).Status = Break →
      (exec (Start { NewSession with Rules := r } t0) ops).Pomodori
        = (exec (Start { NewSession with Rules := r } t0) ops).Breaks + 1) ∧
    ((exec (Start { NewSession with Rules := r } t0) ops).Status = Working ∨
      (exec (Start { NewSession with Rules := r } t0) ops).Status = Break) ∧
    ((exec (Start { NewSession with Rules := r } t0) ops).LongBreak = true ↔
      (exec (Start { NewSession with Rules := r } t0) ops).Pomodori = r.Pomodori.Rounds) ∧
    ((exec (Start { NewSession with Rules := r } t0) ops).LongBreak = true →
      ∀ more : List Op, noStart more = true →
        (exec (exec (Start { NewSession with Rules := r } t0) ops) more).Status = Break ∧
        (exec (exec (Start { NewSession with Rules := r } t0) ops) more).LongBreak = true) := by
  have h0 : CountersOK (Start { NewSession with Rules := r } t0) :=
    ⟨le_refl _, Or.inl ⟨rfl, rfl, rfl, by
      show (0 : Int) < r.Pomodori.Rounds
      omega⟩⟩
  have key : ∀ l : List Op, noStart l = true →
      CountersOK (exec (Start { NewSession with Rules := r } t0) l) ∧
      (exec (Start { NewSession with Rules := r } t0) l).Rules = r := fun l hl =>
    ⟨exec_CountersOK l _ hRR h0 hl, exec_Rules l _⟩
  have hbw : Break ≠ Working := by decide
  obtain ⟨hc, hr⟩ := key ops hops
  unfold CountersOK at hc
  rw [hr] at hc
  obtain ⟨-, hc⟩ := hc
  refine ⟨?_, ?_, ?_, ?_, ?_, ?_⟩
  · rcases hc with ⟨-, -, -, hlt⟩ | ⟨-, -, hle, -⟩
    · omega
    · exact hle
  · intro hs
    rcases hc with ⟨-, hb, hbp, hlt⟩ | ⟨hs', -⟩
    · exact ⟨hbp, hb, hlt⟩
    · rw [hs] at hs'; exact absurd hs'.symm hbw
  · intro hs
    rcases hc with ⟨hs', -⟩ | ⟨-, hp, -⟩
    · rw [hs] at hs'; exact absurd hs' hbw
    · exact hp
  · rcases hc with ⟨hs, -⟩ | ⟨hs, -⟩
    · exact Or.inl hs
    · exact Or.inr hs
  · rcases hc with ⟨-, hb, -, hlt⟩ | ⟨-, -, -, hiff⟩
    · rw [hb]
      constructor
      · intro h; cases h
      · intro h; omega
    · exact hiff
  · intro hlb more hmore
    have hlb' := exec_LongBreak more _ hlb
    obtain ⟨⟨-, hc'⟩, -⟩ := key (ops ++ more) (noStart_append ops more hops hmore)
    rw [exec_append] at hc'
    refine ⟨?_, hlb'⟩
    rcases hc' with ⟨-, hb, -⟩ | ⟨hs, -⟩
    · rw [hlb'] at hb; cases hb
    · exact hs

/-- A 2-round session run through its first work second, for C19. -/
theorem counter_relation_witness :
    (exec (Start { NewSession with
        Rules := { Pomodori := { Rounds := 2, Duration := 1 * Second },
                   Breaks := { Rounds := 7, Duration := 1 * Second } } } 0)
      [.toggle, .update 1]).Pomodori ≤ 2 :=
  (counter_relation
    { Pomodori := { Rounds := 2, Duration := 1 * Second },
      Breaks := { Rounds := 7, Duration := 1 * Second } } 0 [.toggle, .update 1]
    (by decide) (by decide) (by decide)).1

/-- C20: `Rules.Breaks.Rounds` is never consulted. Replacing it by any `n` commutes with
every call: `Start`, `update`, `Toogle` and `Terminate` on the changed session give the
same result value (or block alike) and the changed result session; so every sequence
of calls on two sessions that differ only there yields the same `update` results and
sessions that differ only there. In a full run (rounds and durations values of an
`int64`, four break durations too) the number of short breaks taken is
`Pomodori.Rounds - 1` whatever `Breaks.Rounds` is. -/
theorem break_rounds_unused (n : Int) (s : Session) :
    (∀ now, Start (withBreakRounds n s) now = withBreakRounds n (Start s now)) ∧
    (∀ now, update (withBreakRounds n s) now = (update s now).mapState (withBreakRounds n)) ∧
    Toogle (withBreakRounds n s) = (Toogle s).mapState (withBreakRounds n) ∧
    (∀ now, Terminate (withBreakRounds n s) now
      = (Terminate s now).mapState (withBreakRounds n)) ∧
    (∀ ops : List Op, exec (withBreakRounds n s) ops = withBreakRounds n (exec s ops)) ∧
    (∀ (ops : List Op) (now : Time),
      update (exec (withBreakRounds n s) ops) now
        = (update (exec s ops) now).mapState (withBreakRounds n)) ∧
    (∀ (r : Rules) (R w b : Nat) (t0 : Time) (ts : List Time),
      1 ≤ R → 1 ≤ w → 1 ≤ b → r.Pomodori.Rounds = R →
      r.Pomodori.Duration = (w : Int) * Second → r.Breaks.Duration = (b : Int) * Second →
      inInt64 r.Pomodori.Rounds → inInt64 r.Pomodori.Duration →
      inInt64 (r.Breaks.Duration * 4) →
      R * w + (R - 1) * b + 4 * b ≤ ts.length →
      (Run (withBreakRounds n (Start { NewSession with Rules := r } t0))
          (ts.map Event.tick)).state.Breaks = (R : Int) - 1) := by
  refine ⟨fun _ => rfl, update_withBreakRounds n s, Toogle_withBreakRounds n s,
    Terminate_withBreakRounds n s, fun ops => exec_withBreakRounds n ops s, ?_, ?_⟩
  · intro ops now
    rw [exec_withBreakRounds, update_withBreakRounds]
  · intro r R w b t0 ts hR hw hb hRr hW hB hRR hwR hbR hlen
    rw [hRr] at hRR
    rw [hW] at hwR
    rw [hB] at hbR
    have h0 := AtTick.init
      { r with Breaks := { r.Breaks with Rounds := n } } R w b t0 hR hw
    obtain ⟨s', h1, -, -, -, -, h2, -⟩ :=
      AtTick.loop_blocked (r := { r with Breaks := { r.Breaks with Rounds := n } })
        hw hb hRr hW hB hRR hwR hbR ts 0 _ h0 (by simpa [lastTick] using hlen)
    have e : Run (withBreakRounds n (Start { NewSession with Rules := r } t0))
        (ts.map Event.tick) = .blocked s' := h1
    rw [e]
    exact h2

end Calabash
